import Mathlib

/-!
Verification of `create-jira-ticket-from-dependabot.ex.cjs`.

This file gives a shallow embedding of the script's pure logic in Lean 4:
regex-based extraction of Dependabot upgrades, label sanitisation, endpoint
mode selection and path building, model-response normalisation and free-text
coercion, duplicate search with its retry, and the orchestrating main run
(with the external HTTP world abstracted as oracles), together with theorems
settling the specification claims C1-C10.

Characters are compared through their code points (`Char.toNat`); comments
give the concrete characters for every numeric range.
-/

/-! ## Character classes (from the script's regexes)

The script matches with JavaScript regexes; the classes below are the exact
ECMAScript classes it uses, expressed on code points.
-/

/-- ECMAScript `\s`: tab 9, LF 10, VT 11, FF 12, CR 13, space 32, NBSP 160,
Ogham 5760, en-quad..hair-space 8192-8202, LS 8232, PS 8233, NNBSP 8239,
MMSP 8287, ideographic space 12288, BOM 65279. -/
def jsWs (c : Char) : Bool :=
  c.toNat == 9 || c.toNat == 10 || c.toNat == 11 || c.toNat == 12 || c.toNat == 13 ||
  c.toNat == 32 || c.toNat == 160 || c.toNat == 5760 ||
  (8192 ≤ c.toNat && c.toNat ≤ 8202) ||
  c.toNat == 8232 || c.toNat == 8233 || c.toNat == 8239 || c.toNat == 8287 ||
  c.toNat == 12288 || c.toNat == 65279

/-- ECMAScript `\w` = `[A-Za-z0-9_]`: 65-90 `A-Z`, 97-122 `a-z`, 48-57 `0-9`, 95 `_`. -/
def isWordChar (c : Char) : Bool :=
  (65 ≤ c.toNat && c.toNat ≤ 90) || (97 ≤ c.toNat && c.toNat ≤ 122) ||
  (48 ≤ c.toNat && c.toNat ≤ 57) || c.toNat == 95

/-- Package-name class `[@\w\/.-]`: `@` 64, word chars, `/` 47, `.` 46, `-` 45. -/
def pkgChar (c : Char) : Bool :=
  c.toNat == 64 || isWordChar c || c.toNat == 47 || c.toNat == 46 || c.toNat == 45

/-- Version class `[0-9A-Za-z.+-]`: digits, letters, `.` 46, `+` 43, `-` 45. -/
def verChar (c : Char) : Bool :=
  (48 ≤ c.toNat && c.toNat ≤ 57) || (65 ≤ c.toNat && c.toNat ≤ 90) ||
  (97 ≤ c.toNat && c.toNat ≤ 122) || c.toNat == 46 || c.toNat == 43 || c.toNat == 45

/-- Label class `[a-z0-9_.-]` from `sanitizeLabel`: 97-122 `a-z`, 48-57 `0-9`,
95 `_`, 46 `.`, 45 `-`. -/
def isLabelChar (c : Char) : Bool :=
  (97 ≤ c.toNat && c.toNat ≤ 122) || (48 ≤ c.toNat && c.toNat ≤ 57) ||
  c.toNat == 95 || c.toNat == 46 || c.toNat == 45

/-! ## Generic string helpers -/

/-- JavaScript `String.prototype.trim` (drops `\s` from both ends), on lists. -/
def jsTrimL (cs : List Char) : List Char :=
  ((cs.dropWhile jsWs).reverse.dropWhile jsWs).reverse

/-- JavaScript `String.prototype.trim`. -/
def jsTrim (s : String) : String :=
  (jsTrimL s.data).asString

/-- JavaScript `String.prototype.toLowerCase` (basic-latin scope, as used by
the script on ASCII configuration values and titles). -/
def lowerStr (s : String) : String :=
  (s.data.map Char.toLower).asString

/-- Truthiness of an optional environment string: JavaScript treats an unset
variable (`undefined`) and the empty string as falsy. -/
def envTruthy : Option String → Bool
  | none => false
  | some s => s ≠ ""

/-- `Array.from(new Set(...))`: de-duplication keeping the first occurrence
of each element, in insertion order. -/
def dedupFirst : List String → List String
  | [] => []
  | x :: xs => x :: (dedupFirst xs).filter (fun y => y ≠ x)

/-- One `replace(/X+/g, r)` pass, scanning with an in-run flag: each maximal
run of characters satisfying `p` is replaced by the single character `r`. -/
def collapseRunsAux (p : Char → Bool) (r : Char) : Bool → List Char → List Char
  | _, [] => []
  | inRun, c :: cs =>
    if p c then
      (if inRun then collapseRunsAux p r true cs else r :: collapseRunsAux p r true cs)
    else c :: collapseRunsAux p r false cs

/-- One `replace(/X+/g, r)` pass: each maximal run of characters satisfying
`p` is replaced by the single character `r`. -/
def collapseRuns (p : Char → Bool) (r : Char) (l : List Char) : List Char :=
  collapseRunsAux p r false l

/-!  ## `sanitizeLabel`

```js
function sanitizeLabel(s) {
  return String(s).toLowerCase()
    .replace(/\s+/g, '-')
    .replace(/[^a-z0-9_.-]/g, '-')
    .replace(/[-]+/g, '-')      // (written `[-]+` here only to keep this comment well-formed)
    .slice(0, 200);
}
```
-/

def sanitizeLabel (s : String) : String :=
  ((collapseRuns (fun c => c == '-') '-'
      ((collapseRuns jsWs '-' (s.data.map Char.toLower)).map
        (fun c => if isLabelChar c then c else '-'))).take 200).asString

/-! ## Backtracking regex matcher

The script's three extraction regexes are

* title: `Bump\s+([@\w\/.-]+)\s+from\s+V\s+to\s+V` (flag `i`),
* body bullets: `(?<=\* )([@\w\/.-]+)\s+from\s+V\s+to\s+V` (flags `gi`),
* grouped updates: ``Updates\s+`([@\w\/.-]+)`\s+from\s+V\s+to\s+V`` (flags `gi`),

with `V = ([0-9A-Za-z.+-]+)`.  They are interpreted here by a faithful
backtracking matcher: each `X+` tries its candidate splits longest-first
(ECMAScript greedy semantics), and the literal pieces are matched
case-insensitively (flag `i`).
-/

/-- An extracted upgrade record `{ name, from, to }`. -/
structure Upgrade where
  name : String
  «from» : String
  «to» : String
deriving DecidableEq, Repr

/-- Case-insensitive literal: consume `pat` from the front of the input
(comparing via `Char.toLower`, the basic-latin canonicalisation used by
flag `i` on ASCII patterns), returning the rest. -/
def stripCI : List Char → List Char → Option (List Char)
  | [], cs => some cs
  | _ :: _, [] => none
  | p :: ps, c :: cs => if c.toLower = p.toLower then stripCI ps cs else none

/-- Candidate splits for a greedy `X+`: all ways to consume a non-empty
prefix of the maximal `cls`-run, longest first (the order an ECMAScript
backtracking engine tries them in). -/
def plusSplits (cls : Char → Bool) (cs : List Char) : List (List Char × List Char) :=
  (List.range (cs.takeWhile cls).length).map
    (fun i => ((cs.takeWhile cls).take ((cs.takeWhile cls).length - i),
               (cs.takeWhile cls).drop ((cs.takeWhile cls).length - i) ++ cs.dropWhile cls))

/-- Greedy `X+` followed by continuation `k` (which receives the consumed
run and the rest), backtracking shorter runs on failure. -/
def matchPlus (cls : Char → Bool) (k : List Char → List Char → Option α)
    (cs : List Char) : Option α :=
  (plusSplits cls cs).findSome? (fun pr => k pr.1 pr.2)

def bumpPat : List Char := "Bump".data
def fromPat : List Char := "from".data
def toPat : List Char := "to".data
def updatesPat : List Char := "Updates".data

/-- The backtick character delimiting package names in grouped-update lines. -/
def backquote : Char := Char.ofNat 96

/-- A single literal character. -/
def stripChar (ch : Char) : List Char → Option (List Char)
  | [] => none
  | c :: cs => if c = ch then some cs else none

/-- The shared tail `from\s+([0-9A-Za-z.+-]+)\s+to\s+([0-9A-Za-z.+-]+)` of all
three regexes: returns the two version captures and the rest of the input. -/
def matchFromTo (cs : List Char) : Option (List Char × List Char × List Char) :=
  (stripCI fromPat cs).bind
    (matchPlus jsWs (fun _ r1 =>
      matchPlus verChar (fun f r2 =>
        matchPlus jsWs (fun _ r3 =>
          (stripCI toPat r3).bind
            (matchPlus jsWs (fun _ r4 =>
              matchPlus verChar (fun t r5 => some (f, t, r5)) r4)))
          r2) r1))

/-- `([@\w\/.-]+)\s+from\s+V\s+to\s+V`: the body-bullet regex body, and the
title regex after its `Bump\s+`. -/
def matchPkgFromTo (cs : List Char) : Option (Upgrade × List Char) :=
  matchPlus pkgChar (fun n r =>
    matchPlus jsWs (fun _ r2 =>
      (matchFromTo r2).map (fun ftr => (⟨n.asString, ftr.1.asString, ftr.2.1.asString⟩, ftr.2.2)))
      r) cs

/-- Title regex `Bump\s+([@\w\/.-]+)\s+from\s+V\s+to\s+V` (flag `i`) anchored
at the current position: returns the captures and the rest after the match. -/
def matchBumpAt (cs : List Char) : Option (Upgrade × List Char) :=
  (stripCI bumpPat cs).bind (matchPlus jsWs (fun _ r => matchPkgFromTo r))

/-- Body-bullet regex with its look-behind `(?<=\* )`: `prev` holds the
characters before the current position, most recent first. -/
def matchBulletAt (prev cs : List Char) : Option (Upgrade × List Char) :=
  match prev with
  | ' ' :: '*' :: _ => matchPkgFromTo cs
  | _ => none

/-- Grouped-update regex ``Updates\s+`([@\w\/.-]+)`\s+from\s+V\s+to\s+V``. -/
def matchUpdatesAt (cs : List Char) : Option (Upgrade × List Char) :=
  (stripCI updatesPat cs).bind
    (matchPlus jsWs (fun _ r =>
      (stripChar backquote r).bind
        (matchPlus pkgChar (fun n r2 =>
          (stripChar backquote r2).bind
            (matchPlus jsWs (fun _ r3 =>
              (matchFromTo r3).map
                (fun ftr => (⟨n.asString, ftr.1.asString, ftr.2.1.asString⟩, ftr.2.2))))))))

/-- `String.prototype.match` without flag `g`: try the pattern at each
position left to right and return the first match. -/
def execFirst (m : List Char → Option α) : List Char → Option α
  | [] => m []
  | c :: cs =>
    match m (c :: cs) with
    | some v => some v
    | none => execFirst m cs

/-- `String.prototype.matchAll` (flag `g`): scan left to right, collecting
non-overlapping matches and resuming after each match's end.  `prev` carries
the characters before the scan position (most recent first) for the
look-behind.  All patterns used here consume at least one character, so each
step strictly shrinks the input; the fuel (initialised to one more than the
input length) and the length guard exist only to make the recursion
structural and are never exhausted. -/
def scanAllAux (m : List Char → List Char → Option (Upgrade × List Char)) :
    Nat → List Char → List Char → List Upgrade
  | 0, _, _ => []
  | _ + 1, prev, [] =>
    (match m prev [] with
     | some (u, _) => [u]
     | none => [])
  | fuel + 1, prev, c :: cs =>
    match m prev (c :: cs) with
    | some (u, rest) =>
      if rest.length < cs.length + 1 then
        u :: scanAllAux m fuel (((c :: cs).take ((c :: cs).length - rest.length)).reverse ++ prev) rest
      else [u]
    | none => scanAllAux m fuel (c :: prev) cs

def scanAll (m : List Char → List Char → Option (Upgrade × List Char))
    (prev cs : List Char) : List Upgrade :=
  scanAllAux m (cs.length + 1) prev cs

/-! ## `extractPackages`

```js
function extractPackages(prTitle, prBody) {
  const pkgs = new Set();
  const upgrades = [];
  ...
  return { packages: Array.from(pkgs), upgrades };
}
```
The title is matched once (no flag `g`); the two body regexes are iterated
with `matchAll`; every match pushes an upgrade record and adds its package
name to the set.  `prTitle` is optional (`prTitle?.match`), `prBody` is a
string tested for truthiness (`if (prBody)`).
-/

def extractPackages (prTitle : Option String) (prBody : String) :
    List String × List Upgrade :=
  let titleUps : List Upgrade :=
    match prTitle with
    | some t =>
      match execFirst matchBumpAt t.data with
      | some ur => [ur.1]
      | none => []
    | none => []
  let bodyUps : List Upgrade :=
    if prBody = "" then []
    else scanAll matchBulletAt [] prBody.data ++
         scanAll (fun _ cs => matchUpdatesAt cs) [] prBody.data
  let upgrades := titleUps ++ bodyUps
  (dedupFirst (upgrades.map Upgrade.name), upgrades)

/-! ## JSON values

`JSON.parse` results and other JavaScript values flowing through
`normalizeModelJson`.  A number is carried together with its JavaScript
string rendering (its numeric value is never used by the script, only
`String(...)` coercion and truthiness). -/

inductive JValue where
  | null
  | bool (b : Bool)
  | num (render : String)
  | str (s : String)
  | arr (elems : List JValue)
  | obj (fields : List (String × JValue))

/-- Property access `o[k]` on a parsed JSON object: `JSON.parse` keeps the
last duplicate key, hence the `reverse`. -/
def jsGet (fields : List (String × JValue)) (k : String) : Option JValue :=
  fields.reverse.lookup k

/-- Property access through optional chaining `v?.k`: `undefined` (here
`none`) on `null` and on values without named properties. -/
def jvField (v : JValue) (k : String) : Option JValue :=
  match v with
  | .obj fields => jsGet fields k
  | _ => none

/-- Index access `v?.[i]`: array element, or single-character string. -/
def jvIndex (v : JValue) (i : Nat) : Option JValue :=
  match v with
  | .arr xs => xs.get? i
  | .str s => (s.data.get? i).map (fun c => .str (String.mk [c]))
  | _ => none

/-- JavaScript truthiness.  A number is falsy exactly when it is `0` or
`NaN`; for JSON-parsed numbers that is rendering `"0"`. -/
def truthy : JValue → Bool
  | .null => false
  | .bool b => b
  | .num r => r ≠ "0"
  | .str s => s ≠ ""
  | .arr _ => true
  | .obj _ => true

/-- JavaScript `String(v)` coercion (arrays render as their comma-joined
elements with `null` rendering empty, plain objects as `[object Object]`),
with a structural fuel bounding the array-nesting depth. -/
def jsToStringFuel : Nat → JValue → String
  | _, JValue.null => "null"
  | _, JValue.bool true => "true"
  | _, JValue.bool false => "false"
  | _, JValue.num r => r
  | _, JValue.str s => s
  | _, JValue.obj _ => "[object Object]"
  | 0, JValue.arr _ => ""
  | fuel + 1, JValue.arr xs =>
    String.intercalate (",") (xs.map (fun v =>
      match v with
      | JValue.null => ""
      | w => jsToStringFuel fuel w))

/-- JavaScript `String(v)` coercion.  The fuel only bounds the depth of
*nested arrays* (no other constructor consumes it); 4096 is far beyond any
value the script can meet, and no claim exercises nested-array rendering. -/
def jsToString (v : JValue) : String :=
  jsToStringFuel 4096 v

/-- The `x || ''` pattern applied to a possibly-absent property. -/
def jsOrEmptyStr (v : Option JValue) : JValue :=
  match v with
  | some w => if truthy w then w else .str ""
  | none => .str ""

/-- `arr.filter(s => typeof s === 'string' && s.trim())`: keep exactly the
string entries whose trimmed form is non-empty (the entries keep their
original, untrimmed text). -/
def filterStrEntries (xs : List JValue) : List String :=
  xs.filterMap (fun v =>
    match v with
    | .str s => if jsTrim s = "" then none else some s
    | _ => none)

/-- `Array.isArray(f) ? f.filter(...) : []`. -/
def normArrField (v : Option JValue) : List String :=
  match v with
  | some (.arr xs) => filterStrEntries xs
  | _ => []

/-- The generated ticket-content schema. -/
structure TicketContent where
  title : String
  description : String
  acceptance_criteria : List String
  definition_of_done : List String
  labels : List String
deriving DecidableEq, Repr

/-- `if (!out.title) out.title = 'Dependency upgrades QA validation';` -/
def withDefaultTitle (t : String) : String :=
  if t = "" then "Dependency upgrades QA validation" else t

/-- `out.title.toLowerCase().startsWith('[dependabot')`. -/
def markerTest (t : String) : Bool :=
  ("[dependabot").data.isPrefixOf (t.data.map Char.toLower)

/-- The title-prefixing rule of `normalizeModelJson`:
`if (!title.toLowerCase().startsWith('[dependabot')) title = '[Dependabot] ' + title;` -/
def ensureTitleMarker (t : String) : String :=
  if markerTest t then t else "[Dependabot] " ++ t

/-- Field normalisation of `normalizeModelJson` on an object's fields. -/
def normalizeObjFields (fields : List (String × JValue)) : TicketContent :=
  TicketContent.mk
    (ensureTitleMarker (withDefaultTitle
      (jsTrim (jsToString (jsOrEmptyStr (jsGet fields ("title")))))))
    (jsTrim (jsToString (jsOrEmptyStr (jsGet fields ("description")))))
    (normArrField (jsGet fields ("acceptance_criteria")))
    (normArrField (jsGet fields ("definition_of_done")))
    (normArrField (jsGet fields ("labels")))

/-- ```js
function normalizeModelJson(obj) {
  if (typeof obj !== 'object' || obj === null) throw new Error('Model response is not an object');
  ...
}
```
`typeof` of an array is `'object'`, so arrays pass the guard; their named
properties are all absent. -/
def normalizeModelJson : JValue → Except String TicketContent
  | .obj fields => .ok (normalizeObjFields fields)
  | .arr _ => .ok (normalizeObjFields [])
  | _ => .error ("Model response is not an object")

/-! ## `coerceFreeTextToJson`

Line-by-line coercion of a prose completion into the ticket schema.
-/

/-- `text.split(/\r?\n/)`, accumulator-based. -/
def splitLinesAux (cur : List Char) : List Char → List (List Char)
  | [] => [cur.reverse]
  | '\r' :: '\n' :: rest => cur.reverse :: splitLinesAux [] rest
  | '\n' :: rest => cur.reverse :: splitLinesAux [] rest
  | c :: rest => splitLinesAux (c :: cur) rest

/-- `text.split(/\r?\n/)`. -/
def splitLinesL (cs : List Char) : List (List Char) :=
  splitLinesAux [] cs

/-- Case-insensitive `^pat` test (`/^pat/i.test(line)` for an ASCII
lower-case `pat`). -/
def ciStartsWith (pat : List Char) (l : List Char) : Bool :=
  pat.isPrefixOf (l.map Char.toLower)

def summaryPat : List Char := "summary:".data
def acPat : List Char := "acceptance criteria:".data
def dodPat : List Char := "definition of done:".data
def labelsPat : List Char := "labels:".data
def labelPat : List Char := "label:".data
def refsPat : List Char := "references:".data

/-- `line.replace(/^hdr\s*/i, '')` once the `^hdr` test has succeeded. -/
def dropHeader (pat : List Char) (l : List Char) : List Char :=
  (l.drop pat.length).dropWhile jsWs

/-- `line.replace(/^[-*]\s*/, '')`: strip one leading `-` or `*` bullet mark
and the whitespace after it, if present. -/
def stripBulletMark (l : List Char) : List Char :=
  match l with
  | c :: cs => if c = '-' ∨ c = '*' then cs.dropWhile jsWs else l
  | [] => l

/-- Split on runs of the separator class, dropping empty pieces (the JS
`split(/[,\s]+/)` may produce empty edge pieces, which the subsequent
`.filter(Boolean)` removes; the composition is modelled directly),
accumulator-based. -/
def splitSepPlusAux (sep : Char → Bool) (cur : List Char) : List Char → List (List Char)
  | [] => if cur = [] then [] else [cur.reverse]
  | c :: cs =>
    if sep c then
      (if cur = [] then [] else [cur.reverse]) ++ splitSepPlusAux sep [] cs
    else splitSepPlusAux sep (c :: cur) cs

/-- Split on runs of the separator class, dropping empty pieces. -/
def splitSepPlusL (sep : Char → Bool) (l : List Char) : List (List Char) :=
  splitSepPlusAux sep [] l

/-- The label-line separator class `[,\s]`. -/
def labelSep (c : Char) : Bool :=
  c == ',' || jsWs c

/-- Accumulation section of the coercion scanner: description (default),
acceptance criteria, or definition of done. -/
inductive CSection where
  | desc
  | ac
  | dod
deriving DecidableEq, Repr

/-- Mutable state of the coercion loop (`result` plus `section`). -/
structure CoerceState where
  title : List Char
  desc : List Char
  ac : List (List Char)
  dod : List (List Char)
  labels : List (List Char)
  sec : CSection

/-- One iteration of the `for (const raw of lines)` loop of
`coerceFreeTextToJson`. -/
def coerceLine (st : CoerceState) (raw : List Char) : CoerceState :=
  let line := jsTrimL raw
  if ciStartsWith summaryPat line then
    CoerceState.mk (jsTrimL (dropHeader summaryPat line)) st.desc st.ac st.dod st.labels st.sec
  else if ciStartsWith acPat line then
    CoerceState.mk st.title st.desc st.ac st.dod st.labels CSection.ac
  else if ciStartsWith dodPat line then
    CoerceState.mk st.title st.desc st.ac st.dod st.labels CSection.dod
  else if ciStartsWith labelsPat line || ciStartsWith labelPat line then
    CoerceState.mk st.title st.desc st.ac st.dod
      (st.labels ++ ((splitSepPlusL labelSep
        (if ciStartsWith labelsPat line then dropHeader labelsPat line
         else dropHeader labelPat line)).map jsTrimL).filter (fun p => p ≠ []))
      st.sec
  else if line.map Char.toLower = refsPat then
    CoerceState.mk st.title st.desc st.ac st.dod st.labels CSection.desc
  else if st.sec = CSection.ac ∧ line ≠ [] then
    (if jsTrimL (stripBulletMark line) ≠ [] then
      CoerceState.mk st.title st.desc (st.ac ++ [jsTrimL (stripBulletMark line)]) st.dod st.labels st.sec
     else st)
  else if st.sec = CSection.dod ∧ line ≠ [] then
    (if jsTrimL (stripBulletMark line) ≠ [] then
      CoerceState.mk st.title st.desc st.ac (st.dod ++ [jsTrimL (stripBulletMark line)]) st.labels st.sec
     else st)
  else if line ≠ [] then
    CoerceState.mk st.title
      (if st.desc = [] then raw else st.desc ++ '\n' :: raw)
      st.ac st.dod st.labels st.sec
  else st

/-- PR context handed to the content generator. -/
structure GenCtx where
  repo : String
  prUrl : String
  prTitle : String
  prBody : String
  upgrades : List Upgrade

/-- The fallback title of `coerceFreeTextToJson`:
`upgrades.map(u => u.name).slice(0,3).join(', ') || ctx.prTitle || 'Dependency upgrades'`
wrapped in the fixed template. -/
def coerceFallbackTitle (ctx : GenCtx) : String :=
  let ups := (extractPackages (some ctx.prTitle) ctx.prBody).2
  let top0 := String.intercalate (", ") ((ups.map Upgrade.name).take 3)
  let top := if top0 = "" then (if ctx.prTitle = "" then "Dependency upgrades" else ctx.prTitle) else top0
  "Regression risk after dependency upgrades (" ++ top ++
    (if 3 < ups.length then ", …" else "") ++ ")"

/-- ```js
function coerceFreeTextToJson(text, ctx) { ... }
```
Scan the completion line by line, recognising section headers and bucketing
lines, accumulating everything else into the description. -/
def coerceFreeTextToJson (text : String) (ctx : GenCtx) : TicketContent :=
  let st := (splitLinesL text.data).foldl coerceLine
    (CoerceState.mk [] [] [] [] [] CSection.desc)
  TicketContent.mk
    (if st.title = [] then coerceFallbackTitle ctx else st.title.asString)
    st.desc.asString
    (st.ac.map List.asString)
    (st.dod.map List.asString)
    (st.labels.map List.asString)

/-! Observable projections of the coercion scanner, used to state claim C7:
which raw lines end up in the description. -/

/-- Section transition performed by one line (headers switch sections,
everything else leaves the section unchanged). -/
def coerceSecStep (sec : CSection) (raw : List Char) : CSection :=
  let line := jsTrimL raw
  if ciStartsWith summaryPat line then sec
  else if ciStartsWith acPat line then CSection.ac
  else if ciStartsWith dodPat line then CSection.dod
  else if ciStartsWith labelsPat line || ciStartsWith labelPat line then sec
  else if line.map Char.toLower = refsPat then CSection.desc
  else sec

/-- Is the (trimmed) line one of the recognised header lines? -/
def isHeaderLine (line : List Char) : Bool :=
  ciStartsWith summaryPat line || ciStartsWith acPat line ||
  ciStartsWith dodPat line || ciStartsWith labelsPat line ||
  ciStartsWith labelPat line || decide (line.map Char.toLower = refsPat)

/-- The raw lines that reach the description accumulator: not a header, in
the description section, and (unless `keepBlank`) not blank after trimming.
With `keepBlank := true` this is the set of "unrecognised" lines in the
sense of the specification: neither a header nor bucketed into a section. -/
def keptLinesAux (keepBlank : Bool) : CSection → List (List Char) → List (List Char)
  | _, [] => []
  | sec, raw :: rest =>
    (if !isHeaderLine (jsTrimL raw) && sec == CSection.desc &&
        (keepBlank || jsTrimL raw ≠ []) then [raw] else []) ++
    keptLinesAux keepBlank (coerceSecStep sec raw) rest

/-- The non-blank unrecognised lines: exactly those accumulated into the
description by `coerceFreeTextToJson`. -/
def descKeptLines (text : String) : List (List Char) :=
  keptLinesAux false CSection.desc (splitLinesL text.data)

/-- All unrecognised lines, blank ones included (the reading of the claim). -/
def unrecognizedAllLines (text : String) : List String :=
  (keptLinesAux true CSection.desc (splitLinesL text.data)).map List.asString

/-- Join lines with `\n`, as the incremental description accumulator does. -/
def joinLinesNl : List (List Char) → List Char
  | [] => []
  | [l] => l
  | l :: ls => l ++ '\n' :: joinLinesNl ls

/-- The lines of a description, for stating "contains the lines in order". -/
def descLinesOf (tc : TicketContent) : List String :=
  (splitLinesL tc.description.data).map List.asString

/-! ## Environment and endpoint resolution -/

/-- The environment variables destructured at the top of the script.  An
unset variable is `none`; destructuring defaults are applied by the
accessors below. -/
structure Env where
  DEBUG : Option String
  JIRA_EX_BASE : Option String
  JIRA_CLOUD_ID : Option String
  JIRA_API_BASE : Option String
  JIRA_MODE : Option String
  JIRA_EMAIL : Option String
  JIRA_API_TOKEN : Option String
  JIRA_PROJECT_KEY : Option String
  JIRA_ISSUE_TYPE : Option String
  JIRA_DEFAULT_LABELS : Option String
  JIRA_STORY_POINTS_FIELD_ID : Option String
  JIRA_STORY_POINTS_VALUE : Option String
  JIRA_BROWSE_BASE : Option String
  PR_NUMBER : Option String
  PR_TITLE : Option String
  PR_BODY : Option String
  PR_HTML_URL : Option String
  REPO : Option String
  GH_MODELS_TOKEN : Option String
  GITHUB_TOKEN : Option String
  USE_LLM : Option String
  PREFERRED_MODEL : Option String
  GITHUB_OUTPUT : Option String

/-- Destructuring default `USE_LLM = 'true'`. -/
def Env.useLLM (e : Env) : String := e.USE_LLM.getD ("true")

/-- Destructuring default `PR_BODY = ''`. -/
def Env.prBody (e : Env) : String := e.PR_BODY.getD ("")

/-- Destructuring default `JIRA_DEFAULT_LABELS = ''`. -/
def Env.defaultLabels (e : Env) : String := e.JIRA_DEFAULT_LABELS.getD ("")

/-- Destructuring default `JIRA_STORY_POINTS_FIELD_ID = ''`. -/
def Env.spFieldId (e : Env) : String := e.JIRA_STORY_POINTS_FIELD_ID.getD ("")

/-- Destructuring default `JIRA_STORY_POINTS_VALUE = ''`. -/
def Env.spValue (e : Env) : String := e.JIRA_STORY_POINTS_VALUE.getD ("")

/-- `const MODELS_TOKEN = GH_MODELS_TOKEN || GITHUB_TOKEN;` -/
def Env.modelsToken (e : Env) : Option String :=
  if envTruthy e.GH_MODELS_TOKEN then e.GH_MODELS_TOKEN else e.GITHUB_TOKEN

/-- `String(v)` of a possibly-undefined environment string (template-literal
interpolation of an unset variable prints `undefined`). -/
def envStr (v : Option String) : String := v.getD ("undefined")

/-- The two gateway shapes: direct site API, or the `ex` cloud-id proxy
(the specification's "proxy" mode). -/
inductive JiraMode where
  | site
  | ex
deriving DecidableEq, Repr

/-- ```js
function pickMode() {
  const mode = (JIRA_MODE || '').toLowerCase();
  if (mode === 'site') return 'site';
  if (mode === 'ex') return 'ex';
  if (JIRA_EX_BASE && JIRA_CLOUD_ID) return 'ex';
  if (JIRA_API_BASE) return 'site';
  throw new Error('Missing Jira config: ...');
}
```
The explicit override `(JIRA_MODE || '').toLowerCase()` is split out as
`modeOverride`. -/
def modeOverride (e : Env) : String :=
  lowerStr (e.JIRA_MODE.getD (""))

/-- See `modeOverride` above for the JavaScript source of `pickMode`. -/
def pickMode (e : Env) : Except String JiraMode :=
  let mode := modeOverride e
  if mode = "site" then .ok JiraMode.site
  else if mode = "ex" then .ok JiraMode.ex
  else if envTruthy e.JIRA_EX_BASE && envTruthy e.JIRA_CLOUD_ID then .ok JiraMode.ex
  else if envTruthy e.JIRA_API_BASE then .ok JiraMode.site
  else .error ("Missing Jira config: (JIRA_EX_BASE + JIRA_CLOUD_ID) or JIRA_API_BASE.")

/-- Host extraction of the platform `URL` constructor, modelled for the
http(s) URLs used in configuration: an `http://` or `https://` scheme
(case-insensitive), then the authority up to the first `/`, `?` or `#`,
with userinfo and port dropped and the host lower-cased.  A string without
such a scheme yields `none` (the constructor throws). -/
def urlHostname (s : String) : Option String :=
  let d := s.data
  let dl := d.map Char.toLower
  let afterScheme : Option (List Char) :=
    if ("https://").data.isPrefixOf dl then some (d.drop 8)
    else if ("http://").data.isPrefixOf dl then some (d.drop 7)
    else none
  afterScheme.bind (fun rest =>
    let auth := rest.takeWhile (fun c => !(c == '/' || c == '?' || c == '#'))
    let hostPort := (auth.reverse.takeWhile (fun c => c ≠ '@')).reverse
    let host := hostPort.takeWhile (fun c => c ≠ ':')
    if host = [] then none else some ((host.map Char.toLower).asString))

/-- UTF-8 bytes of a scalar value, for `encodeURIComponent`. -/
def utf8Bytes (c : Char) : List Nat :=
  let n := c.toNat
  if n < 128 then [n]
  else if n < 2048 then [192 + n / 64, 128 + n % 64]
  else if n < 65536 then [224 + n / 4096, 128 + (n / 64) % 64, 128 + n % 64]
  else [240 + n / 262144, 128 + (n / 4096) % 64, 128 + (n / 64) % 64, 128 + n % 64]

/-- Upper-case hex digit. -/
def hexDigit (n : Nat) : Char :=
  if n < 10 then Char.ofNat (48 + n) else Char.ofNat (55 + n)

/-- `encodeURIComponent` unreserved set `A-Z a-z 0-9 - _ . ! ~ * ' ( )`. -/
def uriUnreserved (c : Char) : Bool :=
  (65 ≤ c.toNat && c.toNat ≤ 90) || (97 ≤ c.toNat && c.toNat ≤ 122) ||
  (48 ≤ c.toNat && c.toNat ≤ 57) ||
  c.toNat == 45 || c.toNat == 95 || c.toNat == 46 || c.toNat == 33 ||
  c.toNat == 126 || c.toNat == 42 || c.toNat == 39 || c.toNat == 40 || c.toNat == 41

/-- `encodeURIComponent`: unreserved characters pass through, everything
else is percent-encoded byte-wise. -/
def encodeURIComponent (s : String) : String :=
  (s.data.flatMap (fun c =>
    if uriUnreserved c then [c]
    else (utf8Bytes c).flatMap (fun b => ['%', hexDigit (b / 16), hexDigit (b % 16)]))).asString

/-- The resolved endpoint: mode, host, and the logical-to-physical path map. -/
structure Endpoint where
  mode : JiraMode
  host : String
  path : String → String

/-- `p.startsWith('/') ? p : '/' + p`. -/
def ensureSlash (p : String) : String :=
  if ("/").data.isPrefixOf p.data then p else "/" ++ p

/-- ```js
function jiraHostAndPathBuilder() {
  const mode = pickMode();
  if (mode === 'ex') {
    const host = new URL(JIRA_EX_BASE).hostname;
    return { mode, host, path: (p) => `/ex/jira/<cloudid>/rest/api/3<p>` };
  } else {
    const host = new URL(JIRA_API_BASE).hostname;
    return { mode, host, path: (p) => `/rest/api/3<p>` };
  }
}
```
(`new URL(undefined)` stringifies its argument and throws `Invalid URL`.) -/
def jiraHostAndPathBuilder (e : Env) : Except String Endpoint :=
  match pickMode e with
  | .error msg => .error msg
  | .ok JiraMode.ex =>
    match urlHostname (envStr e.JIRA_EX_BASE) with
    | none => .error ("Invalid URL")
    | some h => .ok (Endpoint.mk JiraMode.ex h (fun p =>
        "/ex/jira/" ++ encodeURIComponent (envStr e.JIRA_CLOUD_ID) ++
        "/rest/api/3" ++ ensureSlash p))
  | .ok JiraMode.site =>
    match urlHostname (envStr e.JIRA_API_BASE) with
    | none => .error ("Invalid URL")
    | some h => .ok (Endpoint.mk JiraMode.site h (fun p =>
        "/rest/api/3" ++ ensureSlash p))

/-! ## HTTP-facing pieces: errors, search, content generation -/

/-- A rejected HTTP call (or synthesized error) as observed by the script:
`status` from `HTTP <code>` failures, `code` from error objects. -/
structure HttpErr where
  status : Option Nat
  code : Option String
  message : String
deriving DecidableEq, Repr

/-- The two request-body envelope shapes of the duplicate search: the
correct `jql` key and the `query` fallback key.  The remaining envelope
fields (`startAt: 0`, `maxResults: 1`, `fields: ['key']`) are fixed
constants and carried implicitly. -/
inductive SearchBody where
  | jqlShape (jql : String)
  | queryShape (jql : String)
deriving DecidableEq, Repr

/-- `text.replace(/["\\]/g, '\\$&')`. -/
def escapeJql : List Char → List Char
  | [] => []
  | c :: cs =>
    if c == '"' || c == '\\' then '\\' :: c :: escapeJql cs
    else c :: escapeJql cs

/-- The JQL query string built by `jiraSearchByText`. -/
def jqlOf (projectKey text : String) : String :=
  "project = " ++ projectKey ++ " AND text ~ \"" ++ (escapeJql text.data).asString ++
  "\" ORDER BY created DESC"

/-- `res.data?.results?.[0]?.issues?.[0] ?? null` (the oracle's value is the
parsed response body). -/
def issueOf (res : JValue) : Option JValue :=
  ((jvField res ("results")).bind (fun r => jvIndex r 0)).bind
    (fun r0 => (jvField r0 ("issues")).bind (fun is => jvIndex is 0))

/-- ```js
async function jiraSearchByText(jira, text) {
  if (!text || !text.trim()) return null;
  ... try 'jql' shape; on HTTP 400 retry once with 'query' shape ...
}
```
`post` is the transport oracle for `jira.post('/search/jql', body)`. -/
def jiraSearchByText (post : SearchBody → Except HttpErr JValue)
    (projectKey text : String) : Except HttpErr (Option JValue) :=
  if jsTrim text = "" then .ok none
  else
    let jql := jqlOf projectKey text
    match post (SearchBody.jqlShape jql) with
    | .ok res => .ok (issueOf res)
    | .error e =>
      if e.status = some 400 then
        match post (SearchBody.queryShape jql) with
        | .ok res2 => .ok (issueOf res2)
        | .error e2 => .error e2
      else .error e

/-- The sequence of request bodies `jiraSearchByText` sends, in order. -/
def jiraSearchAttempts (post : SearchBody → Except HttpErr JValue)
    (projectKey text : String) : List SearchBody :=
  if jsTrim text = "" then []
  else
    let jql := jqlOf projectKey text
    match post (SearchBody.jqlShape jql) with
    | .ok _ => [SearchBody.jqlShape jql]
    | .error e =>
      if e.status = some 400 then
        [SearchBody.jqlShape jql, SearchBody.queryShape jql]
      else [SearchBody.jqlShape jql]

/-- The first `{`-to-last-`}` substring match `content.match(/\x7b[\s\S]*\x7d/)`. -/
def lbrace : Char := Char.ofNat 123

def rbrace : Char := Char.ofNat 125

/-- `content.match` of the brace-delimited-object regex: from the first
opening brace through the last closing brace after it, if any. -/
def braceMatch (cs : List Char) : Option (List Char) :=
  match cs.dropWhile (fun c => c ≠ lbrace) with
  | [] => none
  | c :: rest =>
    match rest.reverse.findIdx? (fun d => d == rbrace) with
    | some k => some (c :: rest.take (rest.length - k))
    | none => none

/-- The error thrown when the completion carries no content. -/
def noContentErr : HttpErr :=
  HttpErr.mk none none ("no_content_from_models_api")

/-- `const content = res?.data?.choices?.[0]?.message?.content; if (!content) throw ...`
A present but non-string truthy content value would crash `content.match`
with a `TypeError`, also a thrown error. -/
def chatContent (data : JValue) : Except HttpErr String :=
  match ((jvField data ("choices")).bind (fun c => jvIndex c 0)).bind
      (fun c0 => (jvField c0 ("message")).bind (fun m => jvField m ("content"))) with
  | some (JValue.str s) => if s = "" then .error noContentErr else .ok s
  | some v =>
    if truthy v then .error (HttpErr.mk none none ("content_not_a_string"))
    else .error noContentErr
  | none => .error noContentErr

/-- The plain object literal returned by `coerceFreeTextToJson`, as the
JavaScript value handed to `normalizeModelJson`. -/
def coerceToJValue (r : TicketContent) : JValue :=
  JValue.obj [("title", JValue.str r.title), ("description", JValue.str r.description),
    ("acceptance_criteria", JValue.arr (r.acceptance_criteria.map JValue.str)),
    ("definition_of_done", JValue.arr (r.definition_of_done.map JValue.str)),
    ("labels", JValue.arr (r.labels.map JValue.str))]

/-- Lift `normalizeModelJson`'s thrown message into the error type. -/
def strErr (m : String) : HttpErr := HttpErr.mk none none m

/-- ```js
async function generateWithGitHubModels(ctx) { ... }
```
`chat` is the transport oracle for the chat-completions POST; `jsonParse`
models the platform `JSON.parse` (returning `none` where it throws);
`tokenPresent` is the truthiness of `MODELS_TOKEN`.  The `try { parsed =
JSON.parse(...); return normalizeModelJson(parsed); } catch {}` block falls
through to the free-text coercion when either the parse or the
normalisation throws.  The diagnostic catalog fetch performed on a failed
call does not alter the re-thrown error and is not modelled. -/
def generateWithGitHubModels (jsonParse : String → Option JValue)
    (chat : Except HttpErr JValue) (tokenPresent : Bool) (ctx : GenCtx) :
    Except HttpErr TicketContent :=
  if !tokenPresent then .error (HttpErr.mk none (some ("missing_token")) ("missing_token"))
  else
    match chat with
    | .error err => .error err
    | .ok data =>
      match chatContent data with
      | .error e => .error e
      | .ok content =>
        let viaCoerce : Except HttpErr TicketContent :=
          match normalizeModelJson (coerceToJValue (coerceFreeTextToJson content ctx)) with
          | .ok tc => .ok tc
          | .error m => .error (strErr m)
        match braceMatch content.data with
        | some js =>
          match jsonParse js.asString with
          | some parsed =>
            match normalizeModelJson parsed with
            | .ok tc => .ok tc
            | .error _ => viaCoerce
          | none => viaCoerce
        | none => viaCoerce

/-! ## Orchestrator (the async IIFE `main`)

External effects are abstracted as a `World` of oracles: the outcome of the
auth check, the search transport, the chat-completions call, the platform
JSON parser and the issue-creation call.  `mainRun` is the script's control
flow over these oracles; its result records the exit code, whether content
generation was invoked, the `jiraCreateIssue` invocations (with their
assembled fields) and the step outputs written. -/

/-- Digit-string value. -/
def decDigitsVal (ds : List Char) : Nat :=
  ds.foldl (fun a c => a * 10 + (c.toNat - 48)) 0

/-- `Number(s)` restricted to the plain finite decimal literals relevant to
the story-points configuration: optional surrounding whitespace, optional
sign, digits with an optional fractional part; the empty (or blank) string
is `0`.  Exponents, hex and `Infinity` are outside this model's scope.
`none` models NaN (`Number.isFinite` false). -/
def jsNumberFinite? (s : String) : Option Rat :=
  let t := jsTrimL s.data
  if t = [] then some 0
  else
    let sgn : Rat := match t with
      | '-' :: _ => -1
      | _ => 1
    let t2 := match t with
      | '-' :: r => r
      | '+' :: r => r
      | _ => t
    let ip := t2.takeWhile Char.isDigit
    let rest := t2.drop ip.length
    match rest with
    | [] => if ip = [] then none else some (sgn * (decDigitsVal ip : Rat))
    | '.' :: fr =>
      if fr.all Char.isDigit ∧ (ip ≠ [] ∨ fr ≠ []) then
        some (sgn * ((decDigitsVal ip : Rat) +
          (decDigitsVal fr : Rat) / ((10 : Rat) ^ fr.length)))
      else none
    | _ => none

/-- The issue fields assembled for `jiraCreateIssue`: project key, issue
type name, summary, the two description-document paragraph texts, labels,
and the optional story-points field. -/
structure IssueFields where
  projectKey : String
  issuetypeName : String
  summary : String
  descriptionText : String
  extrasText : String
  labels : List String
  storyPoints : Option (String × Rat)
deriving DecidableEq, Repr

/-- `base.replace(/\/$/, '')`: drop one trailing slash. -/
def dropOneTrailingSlash (s : String) : String :=
  match s.data.reverse with
  | '/' :: r => r.reverse.asString
  | _ => s

/-- ```js
function buildBrowseUrl(issueKey) {
  const base = (JIRA_BROWSE_BASE || '').replace(/\/$/, '');
  if (!base) return `https://atlassian.net/browse/<key>`;
  return `<base>/browse/<key>`;
}
``` -/
def buildBrowseUrl (e : Env) (issueKey : String) : String :=
  let base := dropOneTrailingSlash (e.JIRA_BROWSE_BASE.getD (""))
  if base = "" then "https://atlassian.net/browse/" ++ issueKey
  else base ++ "/browse/" ++ issueKey

/-- The external world: outcomes of the script's network and platform
effects.  Each oracle is the parsed response body on success or the thrown
error on failure. -/
structure World where
  myself : Except HttpErr JValue
  searchPost : SearchBody → Except HttpErr JValue
  chat : Except HttpErr JValue
  jsonParse : String → Option JValue
  createResult : Except HttpErr JValue

/-- Observable outcome of one run. -/
structure RunResult where
  exitCode : Nat
  genInvoked : Bool
  createdFields : List IssueFields
  outputs : List (String × String)
deriving DecidableEq, Repr

/-- `${v.key}` of a found or created issue (missing key prints `undefined`). -/
def jvKeyStr (v : JValue) : String :=
  match jvField v ("key") with
  | some u => jsToString u
  | none => "undefined"

/-- `setOutput` writes `GITHUB_OUTPUT` lines only when that variable is set. -/
def setOutputs (e : Env) (kvs : List (String × String)) : List (String × String) :=
  if envTruthy e.GITHUB_OUTPUT then kvs else []

/-- The PR context object built in `main` for `generateWithGitHubModels`
(`repo: REPO, prUrl: PR_HTML_URL || '', prTitle: PR_TITLE || '',
prBody: PR_BODY || '', upgrades`). -/
def genCtxOf (e : Env) : GenCtx :=
  GenCtx.mk (envStr e.REPO)
    (e.PR_HTML_URL.getD (""))
    (e.PR_TITLE.getD (""))
    e.prBody
    ((extractPackages e.PR_TITLE e.prBody).2)

/-- The generation step's outcome: `generateWithGitHubModels` applied to
the run's context and oracles. -/
def genOutcome (e : Env) (w : World) : Except HttpErr TicketContent :=
  generateWithGitHubModels w.jsonParse w.chat (envTruthy e.modelsToken) (genCtxOf e)

/-- The duplicate-search step's outcome. -/
def searchOutcome (e : Env) (w : World) : Except HttpErr (Option JValue) :=
  jiraSearchByText w.searchPost (envStr e.JIRA_PROJECT_KEY) (e.PR_HTML_URL.getD (""))

/-- `Array.from(new Set(['dependabot', ...defaults, ...parsedPkgLabels, ...modelLabels]))`
with `defaults = JIRA_DEFAULT_LABELS.split(',').map(trim).filter(Boolean)`.
(`gen.labels` is always an array in this model, so the `Array.isArray`
guard is vacuous.) -/
def assembleLabels (e : Env) (packages : List String) (gen : TicketContent) : List String :=
  let defaults := ((e.defaultLabels.split (fun c => c = ',')).map jsTrim).filter (fun s => s ≠ "")
  dedupFirst (["dependabot"] ++ defaults ++ packages.map sanitizeLabel ++
    gen.labels.map sanitizeLabel)

/-- `- item` bullet list, newline-joined. -/
def bulletJoin (xs : List String) : String :=
  String.intercalate ("\n") (xs.map (fun i => "- " ++ i))

/-- The appended description block
`\n\n*Acceptance Criteria*\n<ac>\n\n*Definition of Done*\n<dod>\nPR: <url>\n`. -/
def extrasOf (e : Env) (gen : TicketContent) : String :=
  "\n\n*Acceptance Criteria*\n" ++ bulletJoin gen.acceptance_criteria ++
  "\n\n*Definition of Done*\n" ++ bulletJoin gen.definition_of_done ++
  "\nPR: " ++ envStr e.PR_HTML_URL ++ "\n"

/-- The `fields` object passed to `jiraCreateIssue`: project, issue type
(`JIRA_ISSUE_TYPE || 'Bug'`), summary (`gen.title || '[Dependabot] ' +
PR_TITLE`), the two 60000-character-capped description paragraphs, labels,
and the story-points field when configured, numeric and finite. -/
def assembleFields (e : Env) (gen : TicketContent) (labels : List String) : IssueFields :=
  IssueFields.mk
    (envStr e.JIRA_PROJECT_KEY)
    (if envTruthy e.JIRA_ISSUE_TYPE then e.JIRA_ISSUE_TYPE.getD ("") else "Bug")
    (if gen.title ≠ "" then gen.title else "[Dependabot] " ++ envStr e.PR_TITLE)
    ((gen.description.data.take 60000).asString)
    (((extrasOf e gen).data.take 60000).asString)
    labels
    (if e.spFieldId ≠ "" ∧ e.spValue ≠ "" then
      match jsNumberFinite? e.spValue with
      | some sp => some (e.spFieldId, sp)
      | none => none
     else none)

/-- A run that terminates via the top-level catch: `process.exit(1)`. -/
def failRun (genInvoked : Bool) (created : List IssueFields) : RunResult :=
  RunResult.mk 1 genInvoked created []

/-- The script's async IIFE: validate configuration, resolve the endpoint,
check auth, search for a duplicate (non-fatal on failure), generate content
(fatal on failure), assemble fields, create the issue, report.  Every
thrown error unwinds to the top-level catch, which exits 1. -/
def mainRun (e : Env) (w : World) : RunResult :=
  if !envTruthy e.JIRA_EMAIL then failRun false []
  else if !envTruthy e.JIRA_API_TOKEN then failRun false []
  else if !envTruthy e.JIRA_PROJECT_KEY then failRun false []
  else if e.useLLM = "true" && !envTruthy e.modelsToken then failRun false []
  else
    match pickMode e with
    | .error _ => failRun false []
    | .ok _ =>
      match jiraHostAndPathBuilder e with
      | .error _ => failRun false []
      | .ok _ep =>
        match w.myself with
        | .error _ => failRun false []
        | .ok _ =>
          let packages := (extractPackages e.PR_TITLE e.prBody).1
          let existing : Option JValue :=
            if envTruthy e.PR_HTML_URL && jsTrim (e.PR_HTML_URL.getD ("")) ≠ "" then
              match searchOutcome e w with
              | .ok v => v
              | .error _ => none
            else none
          match existing with
          | some issue =>
            RunResult.mk 0 false []
              (setOutputs e [("jira_key", jvKeyStr issue),
                             ("jira_url", buildBrowseUrl e (jvKeyStr issue))])
          | none =>
            if e.useLLM = "true" then
              match genOutcome e w with
              | .error _ => failRun true []
              | .ok gen =>
                let fields := assembleFields e gen (assembleLabels e packages gen)
                match w.createResult with
                | .error _ => failRun true [fields]
                | .ok created =>
                  RunResult.mk 0 true [fields]
                    (setOutputs e [("jira_key", jvKeyStr created),
                                   ("jira_url", buildBrowseUrl e (jvKeyStr created))])
            else failRun false []

/-! ## Character-level lemmas -/

theorem charToNat_ofNat {n : Nat} (h : n.isValidChar) : (Char.ofNat n).toNat = n := by
  unfold Char.ofNat
  rw [dif_pos h]
  simp [Char.ofNatAux, Char.toNat, UInt32.toNat]

/-- `Char.toLower` either shifts an upper-case basic-latin letter by 32 or
is the identity. -/
theorem toLower_eq_or (c : Char) :
    (65 ≤ c.toNat ∧ c.toNat ≤ 90 ∧ (c.toLower).toNat = c.toNat + 32) ∨
    (¬(65 ≤ c.toNat ∧ c.toNat ≤ 90) ∧ c.toLower = c) := by
  unfold Char.toLower
  by_cases h : 65 ≤ c.toNat ∧ c.toNat ≤ 90
  · left
    refine ⟨h.1, h.2, ?_⟩
    rw [if_pos (by exact ⟨h.1, h.2⟩)]
    rw [charToNat_ofNat]
    exact Or.inl (by omega)
  · right
    refine ⟨h, ?_⟩
    rw [if_neg (fun hh => h ⟨hh.1, hh.2⟩)]

theorem char_eq_iff_toNat {a b : Char} : a = b ↔ a.toNat = b.toNat := by
  constructor
  · intro h; rw [h]
  · intro h
    apply Char.eq_of_val_eq
    apply UInt32.eq_of_toBitVec_eq
    exact BitVec.eq_of_toNat_eq h

theorem isLabelChar_toLower {c : Char} (h : isLabelChar c = true) : c.toLower = c := by
  rcases toLower_eq_or c with ⟨h1, h2, _⟩ | ⟨_, h2⟩
  · exfalso
    simp only [isLabelChar, Bool.or_eq_true, Bool.and_eq_true, decide_eq_true_eq,
      beq_iff_eq] at h
    omega
  · exact h2

theorem jsWs_toLower {c : Char} (h : jsWs c = true) : c.toLower = c := by
  rcases toLower_eq_or c with ⟨h1, h2, _⟩ | ⟨_, h2⟩
  · exfalso
    simp only [jsWs, Bool.or_eq_true, Bool.and_eq_true, decide_eq_true_eq,
      beq_iff_eq] at h
    omega
  · exact h2

theorem isLabelChar_not_ws {c : Char} (h : isLabelChar c = true) : jsWs c = false := by
  cases hw : jsWs c
  · rfl
  · exfalso
    simp only [isLabelChar, Bool.or_eq_true, Bool.and_eq_true, decide_eq_true_eq,
      beq_iff_eq] at h
    simp only [jsWs, Bool.or_eq_true, Bool.and_eq_true, decide_eq_true_eq,
      beq_iff_eq] at hw
    omega

theorem pkgChar_not_ws {c : Char} (h : pkgChar c = true) : jsWs c = false := by
  cases hw : jsWs c
  · rfl
  · exfalso
    simp only [pkgChar, isWordChar, Bool.or_eq_true, Bool.and_eq_true,
      decide_eq_true_eq, beq_iff_eq] at h
    simp only [jsWs, Bool.or_eq_true, Bool.and_eq_true, decide_eq_true_eq,
      beq_iff_eq] at hw
    omega

theorem verChar_not_ws {c : Char} (h : verChar c = true) : jsWs c = false := by
  cases hw : jsWs c
  · rfl
  · exfalso
    simp only [verChar, Bool.or_eq_true, Bool.and_eq_true, decide_eq_true_eq,
      beq_iff_eq] at h
    simp only [jsWs, Bool.or_eq_true, Bool.and_eq_true, decide_eq_true_eq,
      beq_iff_eq] at hw
    omega

theorem ws_not_pkgChar {c : Char} (h : jsWs c = true) : pkgChar c = false := by
  cases hp : pkgChar c
  · rfl
  · rw [pkgChar_not_ws hp] at h; cases h

theorem ws_not_verChar {c : Char} (h : jsWs c = true) : verChar c = false := by
  cases hp : verChar c
  · rfl
  · rw [verChar_not_ws hp] at h; cases h

/-- If `c` lower-cases to a non-whitespace character, `c` itself is not
whitespace (whitespace is fixed by `toLower`). -/
theorem not_ws_of_toLower {c d : Char} (hd : jsWs d = false) (h : c.toLower = d) :
    jsWs c = false := by
  cases hw : jsWs c
  · rfl
  · rw [jsWs_toLower hw] at h
    rw [h] at hw
    rw [hw] at hd
    cases hd

/-! ## Claim C3: endpoint-mode selection priority -/

/-- Claim C3: `pickMode` honours an explicit `site`/`ex` ("proxy") override;
otherwise selects `ex` when both the gateway root and the cloud id are
present; otherwise selects `site` when the site root is present; otherwise
fails with the configuration error naming both missing alternatives. -/
theorem c3_pickMode (e : Env) :
    (modeOverride e = "site" → pickMode e = Except.ok JiraMode.site) ∧
    (modeOverride e = "ex" → pickMode e = Except.ok JiraMode.ex) ∧
    (modeOverride e ≠ "site" → modeOverride e ≠ "ex" →
      envTruthy e.JIRA_EX_BASE = true → envTruthy e.JIRA_CLOUD_ID = true →
      pickMode e = Except.ok JiraMode.ex) ∧
    (modeOverride e ≠ "site" → modeOverride e ≠ "ex" →
      ¬(envTruthy e.JIRA_EX_BASE = true ∧ envTruthy e.JIRA_CLOUD_ID = true) →
      envTruthy e.JIRA_API_BASE = true → pickMode e = Except.ok JiraMode.site) ∧
    (modeOverride e ≠ "site" → modeOverride e ≠ "ex" →
      ¬(envTruthy e.JIRA_EX_BASE = true ∧ envTruthy e.JIRA_CLOUD_ID = true) →
      envTruthy e.JIRA_API_BASE = false →
      pickMode e =
        Except.error ("Missing Jira config: (JIRA_EX_BASE + JIRA_CLOUD_ID) or JIRA_API_BASE.")) := by
  refine ⟨?_, ?_, ?_, ?_, ?_⟩
  · intro h1
    simp [pickMode, h1]
  · intro h1
    simp [pickMode, h1]
  · intro h1 h2 h3 h4
    simp [pickMode, h1, h2, h3, h4]
  · intro h1 h2 h3 h4
    cases hx : envTruthy e.JIRA_EX_BASE with
    | false => simp [pickMode, h1, h2, hx, h4]
    | true =>
      cases hc : envTruthy e.JIRA_CLOUD_ID with
      | false => simp [pickMode, h1, h2, hx, hc, h4]
      | true => exact absurd ⟨hx, hc⟩ h3
  · intro h1 h2 h3 h4
    cases hx : envTruthy e.JIRA_EX_BASE with
    | false => simp [pickMode, h1, h2, hx, h4]
    | true =>
      cases hc : envTruthy e.JIRA_CLOUD_ID with
      | false => simp [pickMode, h1, h2, hx, hc, h4]
      | true => exact absurd ⟨hx, hc⟩ h3

/-- An environment with only the given variables set (in the order they are
destructured from `process.env`). -/
def testEnv (exBase cloudId apiBase mode email apiToken projectKey prTitle prUrl ghTok : Option String) : Env :=
  Env.mk none exBase cloudId apiBase mode email apiToken projectKey none none
    none none none none prTitle none prUrl none ghTok none none none none

def envC3 : Env :=
  testEnv (some ("https://api.atlassian.com")) (some ("cid-1")) none none
    (some ("a@b.c")) (some ("tok")) (some ("OPS")) none none none

theorem c3_pickMode_witness : pickMode envC3 = Except.ok JiraMode.ex :=
  (c3_pickMode envC3).2.2.1 (by decide) (by decide) (by decide) (by decide)

/-! ## Claim C4: the logical-to-physical path map -/

/-- Claim C4: a successfully built endpoint maps a logical path `p` to, in
`ex` ("proxy") mode, the identifier segment `/ex/jira/<encoded cloud id>`
followed by the fixed prefix `/rest/api/3` followed by (slash-normalised)
`p`; in site mode, the fixed prefix followed by `p`; a `p` that already
starts with `/` is passed through unchanged by the normalisation, and the
map is deterministic for a given configuration. -/
theorem c4_jiraPathBuilder (e : Env) (ep : Endpoint) (p : String)
    (h : jiraHostAndPathBuilder e = Except.ok ep) :
    (ep.mode = JiraMode.ex →
      ep.path p = "/ex/jira/" ++ encodeURIComponent (envStr e.JIRA_CLOUD_ID) ++
        "/rest/api/3" ++ ensureSlash p) ∧
    (ep.mode = JiraMode.site → ep.path p = "/rest/api/3" ++ ensureSlash p) ∧
    (("/").data.isPrefixOf p.data = true → ensureSlash p = p) ∧
    (∀ ep2, jiraHostAndPathBuilder e = Except.ok ep2 → ep2.path p = ep.path p) := by
  have hdet : ∀ ep2, jiraHostAndPathBuilder e = Except.ok ep2 → ep2.path p = ep.path p := by
    intro ep2 h2
    have h3 : (Except.ok ep : Except String Endpoint) = Except.ok ep2 := h.symm.trans h2
    cases h3
    rfl
  have hslash : ("/").data.isPrefixOf p.data = true → ensureSlash p = p := by
    intro hp
    simp [ensureSlash, hp]
  unfold jiraHostAndPathBuilder at h
  split at h
  · cases h
  · split at h
    · cases h
    · cases h
      exact ⟨fun _ => rfl, fun hm => by simp at hm, hslash, hdet⟩
  · split at h
    · cases h
    · cases h
      exact ⟨fun hm => by simp at hm, fun _ => rfl, hslash, hdet⟩

def envC4 : Env :=
  testEnv (some ("https://api.example.com/gateway")) (some ("c i/d")) none none
    (some ("a@b.c")) (some ("tok")) (some ("OPS")) none none none

theorem c4_jiraPathBuilder_witness :
    ∃ ep, jiraHostAndPathBuilder envC4 = Except.ok ep ∧
      ep.path ("issue") = "/ex/jira/c%20i%2Fd/rest/api/3/issue" ∧
      ep.path ("/issue") = "/ex/jira/c%20i%2Fd/rest/api/3/issue" := by
  refine ⟨_, rfl, ?_, ?_⟩
  · rw [(c4_jiraPathBuilder envC4 _ ("issue") rfl).1 rfl]
    decide
  · rw [(c4_jiraPathBuilder envC4 _ ("/issue") rfl).1 rfl]
    decide

/-! ## Claim C5: title-prefix rule idempotence -/

theorem isPrefixOf_append_right {p l : List Char} (r : List Char)
    (h : p.isPrefixOf l = true) : p.isPrefixOf (l ++ r) = true := by
  induction p generalizing l with
  | nil => simp [List.isPrefixOf]
  | cons a ps ih =>
    cases l with
    | nil => simp [List.isPrefixOf] at h
    | cons b ls =>
      simp only [List.cons_append, List.isPrefixOf, Bool.and_eq_true] at h ⊢
      exact ⟨h.1, ih h.2⟩

/-- The prepended marker makes the check pass. -/
theorem markerTest_prepend (t : String) : markerTest ("[Dependabot] " ++ t) = true := by
  unfold markerTest
  rw [String.data_append, List.map_append]
  apply isPrefixOf_append_right
  decide

/-- Claim C5: the title-prefix normalisation rule is idempotent, and its
result always starts with the marker case-insensitively. -/
theorem c5_ensureTitleMarker (t : String) :
    ensureTitleMarker (ensureTitleMarker t) = ensureTitleMarker t ∧
    markerTest (ensureTitleMarker t) = true := by
  by_cases h : markerTest t = true
  · constructor
    · unfold ensureTitleMarker
      rw [if_pos h, if_pos h]
    · unfold ensureTitleMarker
      rw [if_pos h]
      exact h
  · have hn : ensureTitleMarker t = "[Dependabot] " ++ t := by
      unfold ensureTitleMarker
      rw [if_neg h]
    constructor
    · rw [hn]
      unfold ensureTitleMarker
      rw [if_pos (markerTest_prepend t)]
    · rw [hn]
      exact markerTest_prepend t

/-! ## Claim C10: `sanitizeLabel` output shape and idempotence -/

theorem mem_collapseRunsAux {p : Char → Bool} {r c : Char} {l : List Char} {b : Bool} :
    c ∈ collapseRunsAux p r b l → c = r ∨ (c ∈ l ∧ p c = false) := by
  induction l generalizing b with
  | nil => intro h; simp [collapseRunsAux] at h
  | cons a cs ih =>
    intro h
    simp only [collapseRunsAux] at h
    by_cases hp : p a = true
    · rw [if_pos hp] at h
      cases b with
      | true =>
        simp only [if_true] at h
        rcases ih h with h1 | ⟨h2, h3⟩
        · exact Or.inl h1
        · exact Or.inr ⟨List.mem_cons_of_mem _ h2, h3⟩
      | false =>
        simp only [Bool.false_eq_true, if_false] at h
        rcases List.mem_cons.mp h with h1 | h2
        · exact Or.inl h1
        · rcases ih h2 with h1 | ⟨h2', h3⟩
          · exact Or.inl h1
          · exact Or.inr ⟨List.mem_cons_of_mem _ h2', h3⟩
    · rw [if_neg hp] at h
      rcases List.mem_cons.mp h with h1 | h2
      · subst h1
        exact Or.inr ⟨List.mem_cons_self _ _, by simpa using hp⟩
      · rcases ih h2 with h1 | ⟨h2', h3⟩
        · exact Or.inl h1
        · exact Or.inr ⟨List.mem_cons_of_mem _ h2', h3⟩

theorem mem_collapseRuns {p : Char → Bool} {r c : Char} {l : List Char} :
    c ∈ collapseRuns p r l → c = r ∨ (c ∈ l ∧ p c = false) :=
  mem_collapseRunsAux

theorem collapseRunsAux_id {p : Char → Bool} {r : Char} {l : List Char} {b : Bool}
    (h : ∀ c ∈ l, p c = false) : collapseRunsAux p r b l = l := by
  induction l generalizing b with
  | nil => rfl
  | cons a cs ih =>
    have ha := h a (List.mem_cons_self _ _)
    simp only [collapseRunsAux]
    rw [if_neg (by simp [ha])]
    rw [ih (fun x hx => h x (List.mem_cons_of_mem _ hx))]

theorem collapseRuns_id {p : Char → Bool} {r : Char} {l : List Char}
    (h : ∀ c ∈ l, p c = false) : collapseRuns p r l = l :=
  collapseRunsAux_id h

theorem chain_collapseRunsAux (p : Char → Bool) (r : Char)
    (hpr : ∀ c, p c = false → c ≠ r) (l : List Char) :
    ((collapseRunsAux p r true l).Chain' (fun a b => ¬(a = r ∧ b = r)) ∧
     (∀ y, (collapseRunsAux p r true l).head? = some y → y ≠ r)) ∧
    (collapseRunsAux p r false l).Chain' (fun a b => ¬(a = r ∧ b = r)) := by
  induction l with
  | nil => refine ⟨⟨?_, ?_⟩, ?_⟩ <;> simp [collapseRunsAux]
  | cons a cs ih =>
    obtain ⟨⟨iht, ihh⟩, ihf⟩ := ih
    by_cases hp : p a = true
    · refine ⟨⟨?_, ?_⟩, ?_⟩
      · simp only [collapseRunsAux, if_pos hp, if_true]
        exact iht
      · simp only [collapseRunsAux, if_pos hp, if_true]
        exact ihh
      · simp only [collapseRunsAux, if_pos hp, Bool.false_eq_true, if_false]
        rw [List.chain'_cons']
        refine ⟨?_, iht⟩
        intro y hy hcon
        exact (ihh y hy) hcon.2
    · have ha : a ≠ r := hpr a (by simpa using hp)
      refine ⟨⟨?_, ?_⟩, ?_⟩
      · simp only [collapseRunsAux, if_neg hp]
        rw [List.chain'_cons']
        refine ⟨?_, ihf⟩
        intro y hy hcon
        exact ha hcon.1
      · simp only [collapseRunsAux, if_neg hp]
        intro y hy
        simp only [List.head?_cons, Option.some.injEq] at hy
        subst hy
        exact ha
      · simp only [collapseRunsAux, if_neg hp]
        rw [List.chain'_cons']
        refine ⟨?_, ihf⟩
        intro y hy hcon
        exact ha hcon.1

theorem chain_collapseRuns (p : Char → Bool) (r : Char) (l : List Char)
    (hpr : ∀ c, p c = false → c ≠ r) :
    (collapseRuns p r l).Chain' (fun a b => ¬(a = r ∧ b = r)) :=
  (chain_collapseRunsAux p r hpr l).2

theorem collapseDashAux_id (l : List Char) :
    l.Chain' (fun a b => ¬(a = '-' ∧ b = '-')) →
    (collapseRunsAux (fun c => c == '-') '-' false l = l ∧
     ((∀ y, l.head? = some y → y ≠ '-') →
       collapseRunsAux (fun c => c == '-') '-' true l = l)) := by
  induction l with
  | nil => intro _; exact ⟨rfl, fun _ => rfl⟩
  | cons a cs ih =>
    intro h
    obtain ⟨hhead, htail⟩ := List.chain'_cons'.mp h
    obtain ⟨ihf, iht⟩ := ih htail
    by_cases ha : a = '-'
    · constructor
      · have hcs : ∀ y, cs.head? = some y → y ≠ '-' := by
          intro y hy hy'
          exact hhead y hy ⟨ha, hy'⟩
        simp only [collapseRunsAux]
        rw [if_pos (by simp [ha])]
        simp only [Bool.false_eq_true, if_false]
        rw [iht hcs, ha]
      · intro hcond
        exact absurd ha (hcond a (by simp))
    · have hpa : ¬((a == '-') = true) := by simp [ha]
      constructor
      · simp only [collapseRunsAux]
        rw [if_neg hpa, ihf]
      · intro _
        simp only [collapseRunsAux]
        rw [if_neg hpa, ihf]

theorem collapseDash_id (l : List Char)
    (h : l.Chain' (fun a b => ¬(a = '-' ∧ b = '-'))) :
    collapseRuns (fun c => c == '-') '-' l = l :=
  (collapseDashAux_id l h).1

/-- Claim C10: `sanitizeLabel` is idempotent; its output consists only of
`[a-z0-9_.-]` characters, contains no whitespace, has no two consecutive
dashes, and is at most 200 characters long. -/
theorem c10_sanitizeLabel (s : String) :
    sanitizeLabel (sanitizeLabel s) = sanitizeLabel s ∧
    (∀ c ∈ (sanitizeLabel s).data, isLabelChar c = true) ∧
    (∀ c ∈ (sanitizeLabel s).data, jsWs c = false) ∧
    (sanitizeLabel s).data.Chain' (fun a b => ¬(a = '-' ∧ b = '-')) ∧
    (sanitizeLabel s).length ≤ 200 := by
  have hlabelM : ∀ c ∈ collapseRuns (fun c => c == '-') '-'
      ((collapseRuns jsWs '-' (s.data.map Char.toLower)).map
        (fun c => if isLabelChar c then c else '-')), isLabelChar c = true := by
    intro c hc
    rcases mem_collapseRuns hc with h1 | ⟨h2, _⟩
    · subst h1; decide
    · rcases List.mem_map.mp h2 with ⟨x, _, hx⟩
      by_cases hlx : isLabelChar x = true
      · rw [if_pos hlx] at hx; subst hx; exact hlx
      · rw [if_neg hlx] at hx; subst hx; decide
  have hchainM : (collapseRuns (fun c => c == '-') '-'
      ((collapseRuns jsWs '-' (s.data.map Char.toLower)).map
        (fun c => if isLabelChar c then c else '-'))).Chain'
      (fun a b => ¬(a = '-' ∧ b = '-')) := by
    apply chain_collapseRuns
    intro c h
    simpa using h
  have hdata : (sanitizeLabel s).data = (collapseRuns (fun c => c == '-') '-'
      ((collapseRuns jsWs '-' (s.data.map Char.toLower)).map
        (fun c => if isLabelChar c then c else '-'))).take 200 := rfl
  have hlabel : ∀ c ∈ (sanitizeLabel s).data, isLabelChar c = true := by
    intro c hc
    rw [hdata] at hc
    exact hlabelM c (List.mem_of_mem_take hc)
  have hws : ∀ c ∈ (sanitizeLabel s).data, jsWs c = false :=
    fun c hc => isLabelChar_not_ws (hlabel c hc)
  have hchain : (sanitizeLabel s).data.Chain' (fun a b => ¬(a = '-' ∧ b = '-')) := by
    rw [hdata]
    exact hchainM.take 200
  have hlen : (sanitizeLabel s).length ≤ 200 := by
    show (sanitizeLabel s).data.length ≤ 200
    rw [hdata, List.length_take]
    exact Nat.min_le_left _ _
  refine ⟨?_, hlabel, hws, hchain, hlen⟩
  have e1 : (sanitizeLabel s).data.map Char.toLower = (sanitizeLabel s).data := by
    rw [List.map_congr_left (fun a ha => isLabelChar_toLower (hlabel a ha))]
    exact List.map_id _
  have e2 : collapseRuns jsWs '-' (sanitizeLabel s).data = (sanitizeLabel s).data :=
    collapseRuns_id hws
  have e3 : (sanitizeLabel s).data.map (fun c => if isLabelChar c then c else '-') =
      (sanitizeLabel s).data := by
    rw [List.map_congr_left (fun a ha => if_pos (hlabel a ha))]
    exact List.map_id _
  have e4 : collapseRuns (fun c => c == '-') '-' (sanitizeLabel s).data =
      (sanitizeLabel s).data :=
    collapseDash_id _ hchain
  have e5 : (sanitizeLabel s).data.take 200 = (sanitizeLabel s).data :=
    List.take_of_length_le hlen
  show ((collapseRuns (fun c => c == '-') '-'
      ((collapseRuns jsWs '-' ((sanitizeLabel s).data.map Char.toLower)).map
        (fun c => if isLabelChar c then c else '-'))).take 200).asString = sanitizeLabel s
  rw [e1, e2, e3, e4, e5]
  rfl

theorem c10_sanitizeLabel_witness :
    sanitizeLabel (sanitizeLabel ("@Scope/Pkg  Name!!x")) = sanitizeLabel ("@Scope/Pkg  Name!!x") ∧
    isLabelChar '-' = true ∧ jsWs '-' = false :=
  ⟨(c10_sanitizeLabel ("@Scope/Pkg  Name!!x")).1,
   (c10_sanitizeLabel ("@Scope/Pkg  Name!!x")).2.1 '-' (by decide),
   (c10_sanitizeLabel ("@Scope/Pkg  Name!!x")).2.2.1 '-' (by decide)⟩

/-! ## Claim C6: `normalizeModelJson` schema conformance

The claim says array-valued fields are "filtered to only [their] non-empty
string entries".  The code's filter is `typeof s === 'string' && s.trim()`:
a whitespace-only entry such as `" "` is a non-empty string but is dropped,
so the claim is amended to filter on non-empty *trimmed* content. -/

/-- The claim's literal filter: keep exactly the non-empty string entries. -/
def specNonEmptyStrEntries (xs : List JValue) : List String :=
  xs.filterMap (fun v =>
    match v with
    | JValue.str s => if s = "" then none else some s
    | _ => none)

theorem normArrField_eq_nil {v : Option JValue}
    (h : ¬ ∃ xs, v = some (JValue.arr xs)) : normArrField v = [] := by
  match v with
  | none => rfl
  | some JValue.null => rfl
  | some (JValue.bool _) => rfl
  | some (JValue.num _) => rfl
  | some (JValue.str _) => rfl
  | some (JValue.obj _) => rfl
  | some (JValue.arr xs) => exact absurd ⟨xs, rfl⟩ h

/-- Claim C6 (amended): for every parsed JSON object, `normalizeModelJson`
succeeds; the title and description are string-coerced (and trimmed, the
title additionally defaulted and marker-prefixed); each array-valued list
field is filtered to its entries that are strings with non-empty trimmed
content; a field that is absent or not an array defaults to the empty
list. -/
theorem c6_normalizeModelJson (fields : List (String × JValue)) :
    ∃ tc, normalizeModelJson (JValue.obj fields) = Except.ok tc ∧
      tc.title = ensureTitleMarker (withDefaultTitle
        (jsTrim (jsToString (jsOrEmptyStr (jsGet fields ("title")))))) ∧
      tc.description = jsTrim (jsToString (jsOrEmptyStr (jsGet fields ("description")))) ∧
      (∀ xs, jsGet fields ("acceptance_criteria") = some (JValue.arr xs) →
        tc.acceptance_criteria = filterStrEntries xs) ∧
      ((¬ ∃ xs, jsGet fields ("acceptance_criteria") = some (JValue.arr xs)) →
        tc.acceptance_criteria = []) ∧
      (∀ xs, jsGet fields ("definition_of_done") = some (JValue.arr xs) →
        tc.definition_of_done = filterStrEntries xs) ∧
      ((¬ ∃ xs, jsGet fields ("definition_of_done") = some (JValue.arr xs)) →
        tc.definition_of_done = []) ∧
      (∀ xs, jsGet fields ("labels") = some (JValue.arr xs) →
        tc.labels = filterStrEntries xs) ∧
      ((¬ ∃ xs, jsGet fields ("labels") = some (JValue.arr xs)) →
        tc.labels = []) := by
  refine ⟨normalizeObjFields fields, rfl, rfl, rfl, ?_, ?_, ?_, ?_, ?_, ?_⟩
  · intro xs hxs
    show normArrField (jsGet fields ("acceptance_criteria")) = filterStrEntries xs
    rw [hxs]
    rfl
  · intro h
    exact normArrField_eq_nil h
  · intro xs hxs
    show normArrField (jsGet fields ("definition_of_done")) = filterStrEntries xs
    rw [hxs]
    rfl
  · intro h
    exact normArrField_eq_nil h
  · intro xs hxs
    show normArrField (jsGet fields ("labels")) = filterStrEntries xs
    rw [hxs]
    rfl
  · intro h
    exact normArrField_eq_nil h

/-- Claim C6 counterexample: `" "` is a non-empty string entry, so the
claimed filter keeps it, but `normalizeModelJson` drops it (its trim is
empty). -/
theorem c6_counterexample :
    ∃ tc, normalizeModelJson (JValue.obj [(("labels" : String), JValue.arr [JValue.str (" ")])]) =
        Except.ok tc ∧
      specNonEmptyStrEntries [JValue.str (" ")] = [" "] ∧
      tc.labels = [] := by
  refine ⟨_, rfl, by decide, by decide⟩

theorem c6_normalizeModelJson_witness :
    ∃ tc, normalizeModelJson (JValue.obj
        [(("title" : String), JValue.str ("Fix lib")),
         (("labels" : String), JValue.arr [JValue.str ("ok"), JValue.num ("3"), JValue.str ("  ")])]) =
      Except.ok tc ∧
      tc.title = "[Dependabot] Fix lib" ∧ tc.labels = ["ok"] ∧ tc.acceptance_criteria = [] := by
  obtain ⟨tc, h1, h2, _h3, _h4, h5, _h6, _h7, h8, _h9⟩ :=
    c6_normalizeModelJson
      [(("title" : String), JValue.str ("Fix lib")),
       (("labels" : String), JValue.arr [JValue.str ("ok"), JValue.num ("3"), JValue.str ("  ")])]
  refine ⟨tc, h1, ?_, ?_, ?_⟩
  · rw [h2]; decide
  · rw [h8 [JValue.str ("ok"), JValue.num ("3"), JValue.str ("  ")] rfl]; decide
  · rw [h5 (fun ⟨xs, hxs⟩ => by cases hxs)]

/-! ## Claim C9: package-set de-duplication and the append-only upgrade list -/

theorem dedupFirst_nodup (l : List String) : (dedupFirst l).Nodup := by
  induction l with
  | nil => simp [dedupFirst]
  | cons x xs ih =>
    simp only [dedupFirst]
    rw [List.nodup_cons]
    constructor
    · intro hmem
      have := List.of_mem_filter hmem
      simp at this
    · exact ih.filter _

theorem mem_dedupFirst {l : List String} {y : String} : y ∈ dedupFirst l ↔ y ∈ l := by
  induction l with
  | nil => simp [dedupFirst]
  | cons x xs ih =>
    simp only [dedupFirst, List.mem_cons]
    constructor
    · rintro (rfl | h)
      · exact Or.inl rfl
      · exact Or.inr (ih.mp (List.mem_of_mem_filter h))
    · rintro (rfl | h)
      · exact Or.inl rfl
      · by_cases hxy : y = x
        · exact Or.inl hxy
        · exact Or.inr (List.mem_filter.mpr ⟨ih.mpr h, by simp [hxy]⟩)

/-- Claim C9: the package collection has exactly one entry per distinct
matched package name (it is duplicate-free and carries exactly the names of
the upgrade list); when the upgrade list is empty (no pattern matched) the
package collection is empty (and extraction is a total function, never an
error); the upgrade list itself is append-only and may contain duplicates,
witnessed by a title and a body bullet matching the same package. -/
theorem c9_extractPackages (t : Option String) (b : String) :
    ((extractPackages t b).1.Nodup) ∧
    (∀ x, x ∈ (extractPackages t b).1 ↔ x ∈ (extractPackages t b).2.map Upgrade.name) ∧
    ((extractPackages t b).2 = [] → (extractPackages t b).1 = []) ∧
    ¬ (extractPackages (some ("Bump a from 1.0 to 2.0")) ("* a from 1.0 to 2.0")).2.Nodup := by
  have hfst : (extractPackages t b).1 =
      dedupFirst ((extractPackages t b).2.map Upgrade.name) := rfl
  refine ⟨?_, ?_, ?_, by decide⟩
  · rw [hfst]
    exact dedupFirst_nodup _
  · intro x
    rw [hfst]
    exact mem_dedupFirst
  · intro h
    rw [hfst, h]
    rfl

theorem c9_extractPackages_witness :
    (extractPackages (some ("no upgrades here")) ("nothing")).2 = [] ∧
    (extractPackages (some ("no upgrades here")) ("nothing")).1 = [] :=
  ⟨by decide,
   (c9_extractPackages (some ("no upgrades here")) ("nothing")).2.2.1 (by decide)⟩

/-! ## Claim C7: free-text coercion -/

theorem coerceLine_sec (st : CoerceState) (raw : List Char) :
    (coerceLine st raw).sec = coerceSecStep st.sec raw := by
  unfold coerceLine coerceSecStep
  dsimp only
  split_ifs <;> rfl

theorem coerceLine_desc (st : CoerceState) (raw : List Char) :
    (coerceLine st raw).desc =
      (if !isHeaderLine (jsTrimL raw) && st.sec == CSection.desc && jsTrimL raw ≠ [] then
        (if st.desc = [] then raw else st.desc ++ '\n' :: raw)
       else st.desc) := by
  unfold coerceLine isHeaderLine
  dsimp only
  by_cases h8 : jsTrimL raw = []
  · rw [h8]
    simp [show ciStartsWith summaryPat [] = false from by decide,
          show ciStartsWith acPat [] = false from by decide,
          show ciStartsWith dodPat [] = false from by decide,
          show ciStartsWith labelsPat [] = false from by decide,
          show ciStartsWith labelPat [] = false from by decide,
          show ¬(([] : List Char).map Char.toLower = refsPat) from by decide,
          show ¬(refsPat = []) from by decide]
  · by_cases h1 : ciStartsWith summaryPat (jsTrimL raw) = true
    · simp [h1]
    · by_cases h2 : ciStartsWith acPat (jsTrimL raw) = true
      · simp [h1, h2]
      · by_cases h3 : ciStartsWith dodPat (jsTrimL raw) = true
        · simp [h1, h2, h3]
        · by_cases h4 : (ciStartsWith labelsPat (jsTrimL raw) || ciStartsWith labelPat (jsTrimL raw)) = true
          · simp [h1, h2, h3, h4]
          · by_cases h5 : (jsTrimL raw).map Char.toLower = refsPat
            · simp [h1, h2, h3, h4, h5]
            · cases hsec : st.sec with
              | ac =>
                simp only [h1, h2, h3, h4, h5, h8, hsec, if_false]
                simp [h8]
                split_ifs <;> rfl
              | dod =>
                simp only [h1, h2, h3, h4, h5, h8, hsec, if_false]
                simp [h8]
                split_ifs <;> rfl
              | desc =>
                simp [h1, h2, h3, h4, h5, h8, hsec]

/-- The incremental description accumulator. -/
def joinFrom (d : List Char) : List (List Char) → List Char
  | [] => d
  | l :: ls => joinFrom (if d = [] then l else d ++ '\n' :: l) ls

/-- The lines following the first, each preceded by a newline. -/
def nlTail : List (List Char) → List Char
  | [] => []
  | l :: ls => '\n' :: (l ++ nlTail ls)

theorem joinFrom_ne (ls : List (List Char)) :
    ∀ d, d ≠ [] → joinFrom d ls = d ++ nlTail ls := by
  induction ls with
  | nil => intro d _; simp [joinFrom, nlTail]
  | cons l ls ih =>
    intro d hd
    rw [joinFrom, if_neg hd]
    rw [ih _ (by simp)]
    simp [nlTail]

theorem joinLinesNl_eq (l : List Char) (ls : List (List Char)) :
    joinLinesNl (l :: ls) = l ++ nlTail ls := by
  induction ls generalizing l with
  | nil => simp [joinLinesNl, nlTail]
  | cons l2 ls ih =>
    rw [show joinLinesNl (l :: l2 :: ls) = l ++ '\n' :: joinLinesNl (l2 :: ls) from rfl]
    rw [ih l2]
    simp [nlTail]

theorem joinFrom_nil_eq (ls : List (List Char)) (h : ∀ l ∈ ls, l ≠ []) :
    joinFrom [] ls = joinLinesNl ls := by
  cases ls with
  | nil => rfl
  | cons l ls =>
    rw [joinFrom, if_pos rfl]
    rw [joinFrom_ne ls l (h l (List.mem_cons_self _ _))]
    rw [joinLinesNl_eq]

theorem keptLinesAux_ne_nil {sec : CSection} {lines : List (List Char)} :
    ∀ l ∈ keptLinesAux false sec lines, l ≠ [] := by
  induction lines generalizing sec with
  | nil => intro l h; simp [keptLinesAux] at h
  | cons raw rest ih =>
    intro l h
    rw [keptLinesAux] at h
    rcases List.mem_append.mp h with h1 | h2
    · by_cases hc : (!isHeaderLine (jsTrimL raw) && sec == CSection.desc &&
          (false || jsTrimL raw ≠ [])) = true
      · rw [if_pos hc] at h1
        simp only [List.mem_singleton] at h1
        subst h1
        have : jsTrimL l ≠ [] := by
          have := (Bool.and_eq_true _ _).mp hc
          simpa using this.2
        intro hl
        rw [hl] at this
        exact this rfl
      · rw [if_neg hc] at h1
        simp at h1
    · exact ih l h2

theorem foldl_coerce_desc (lines : List (List Char)) :
    ∀ st : CoerceState,
      (lines.foldl coerceLine st).desc =
        joinFrom st.desc (keptLinesAux false st.sec lines) := by
  induction lines with
  | nil => intro st; rfl
  | cons raw rest ih =>
    intro st
    rw [List.foldl_cons, ih (coerceLine st raw), keptLinesAux, coerceLine_sec]
    by_cases hc : (!isHeaderLine (jsTrimL raw) && st.sec == CSection.desc &&
        (false || jsTrimL raw ≠ [])) = true
    · rw [if_pos hc]
      have hdesc : (coerceLine st raw).desc =
          (if st.desc = [] then raw else st.desc ++ '\n' :: raw) := by
        rw [coerceLine_desc]
        rw [if_pos (by simpa using hc)]
      rw [hdesc]
      rfl
    · rw [if_neg hc]
      have hdesc : (coerceLine st raw).desc = st.desc := by
        rw [coerceLine_desc]
        rw [if_neg (by simpa using hc)]
      rw [hdesc, List.nil_append]

theorem asString_ne_empty {l : List Char} (h : l ≠ []) : l.asString ≠ "" := by
  intro he
  exact h (congrArg String.data he)

theorem coerceFallbackTitle_ne (ctx : GenCtx) : coerceFallbackTitle ctx ≠ "" := by
  unfold coerceFallbackTitle
  intro h
  have h2 := congrArg String.data h
  rw [String.data_append, String.data_append, String.data_append,
    show ("" : String).data = [] from rfl] at h2
  simp only [List.append_eq_nil] at h2
  exact absurd h2.1.1.1 (by decide)

/-- Claim C7 (amended): for every completion text, the free-text coercion
produces a non-empty title, and a description consisting of exactly the
non-blank unrecognised lines verbatim, in their original order, joined by
newlines.  (Whitespace-only unrecognised lines are dropped, and
`References:` also acts as a recognised header switching back to the
description section.) -/
theorem c7_coerceFreeText (text : String) (ctx : GenCtx) :
    (coerceFreeTextToJson text ctx).title ≠ "" ∧
    (coerceFreeTextToJson text ctx).description =
      (joinLinesNl (descKeptLines text)).asString := by
  constructor
  · have hst : (coerceFreeTextToJson text ctx).title =
        (if ((splitLinesL text.data).foldl coerceLine
              (CoerceState.mk [] [] [] [] [] CSection.desc)).title = []
         then coerceFallbackTitle ctx
         else ((splitLinesL text.data).foldl coerceLine
              (CoerceState.mk [] [] [] [] [] CSection.desc)).title.asString) := rfl
    rw [hst]
    by_cases ht : ((splitLinesL text.data).foldl coerceLine
        (CoerceState.mk [] [] [] [] [] CSection.desc)).title = []
    · rw [if_pos ht]
      exact coerceFallbackTitle_ne ctx
    · rw [if_neg ht]
      exact asString_ne_empty ht
  · have hd : (coerceFreeTextToJson text ctx).description =
        ((splitLinesL text.data).foldl coerceLine
          (CoerceState.mk [] [] [] [] [] CSection.desc)).desc.asString := rfl
    rw [hd, foldl_coerce_desc]
    rw [show (CoerceState.mk [] [] [] [] [] CSection.desc).desc = [] from rfl]
    rw [joinFrom_nil_eq _ keptLinesAux_ne_nil]
    rfl

def ctxC7 : GenCtx := GenCtx.mk ("r") ("u") ("t") ("") []

/-- Claim C7 counterexample: in the completion `"x\n \ny"` the
whitespace-only middle line is unrecognised (it is no header and is not
bucketed), yet the description `"x\ny"` does not contain it: the claimed
"all unrecognised lines verbatim" fails for blank lines. -/
theorem c7_counterexample :
    unrecognizedAllLines ("x\n \ny") = ["x", " ", "y"] ∧
    (coerceFreeTextToJson ("x\n \ny") ctxC7).description = "x\ny" ∧
    (" " : String) ∈ unrecognizedAllLines ("x\n \ny") ∧
    (" " : String) ∉ descLinesOf (coerceFreeTextToJson ("x\n \ny") ctxC7) := by
  refine ⟨by decide, by decide, by decide, by decide⟩

/-! ## Claim C8: duplicate-search retry and non-fatal failure -/

theorem jiraSearchByText_const_ok (pk url : String) :
    jiraSearchByText (fun _ => Except.ok (JValue.obj [])) pk url = Except.ok none := by
  unfold jiraSearchByText
  split_ifs <;> rfl

/-- Claim C8: a first search request rejected with HTTP 400 (query-shape
error) is retried exactly once, with the alternative `query` envelope; if
both attempts fail, the second error propagates out of `jiraSearchByText`;
and any failed search outcome leaves the orchestrator's run identical to a
run whose search succeeds finding no duplicate (the failure is logged and
non-fatal). -/
theorem c8_searchRetry (post : SearchBody → Except HttpErr JValue)
    (pk text : String) (e1 e2 : HttpErr)
    (hblank : ¬(jsTrim text = ""))
    (h1 : post (SearchBody.jqlShape (jqlOf pk text)) = Except.error e1)
    (h400 : e1.status = some 400)
    (h2 : post (SearchBody.queryShape (jqlOf pk text)) = Except.error e2) :
    jiraSearchAttempts post pk text =
      [SearchBody.jqlShape (jqlOf pk text), SearchBody.queryShape (jqlOf pk text)] ∧
    jiraSearchByText post pk text = Except.error e2 ∧
    (∀ (env : Env) (w : World) (err : HttpErr),
      searchOutcome env w = Except.error err →
      mainRun env w = mainRun env (World.mk w.myself (fun _ => Except.ok (JValue.obj []))
        w.chat w.jsonParse w.createResult)) := by
  refine ⟨?_, ?_, ?_⟩
  · unfold jiraSearchAttempts
    rw [if_neg hblank]
    dsimp only
    rw [h1]
    dsimp only
    rw [if_pos h400]
  · unfold jiraSearchByText
    rw [if_neg hblank]
    dsimp only
    rw [h1]
    dsimp only
    rw [if_pos h400, h2]
  · intro env w err hs
    have hw' : searchOutcome env (World.mk w.myself (fun _ => Except.ok (JValue.obj []))
        w.chat w.jsonParse w.createResult) = Except.ok none := by
      unfold searchOutcome
      exact jiraSearchByText_const_ok _ _
    unfold mainRun
    rw [hs, hw']
    rfl

def postC8 : SearchBody → Except HttpErr JValue := fun b =>
  match b with
  | SearchBody.jqlShape _ => Except.error (HttpErr.mk (some 400) none ("HTTP 400"))
  | SearchBody.queryShape _ => Except.error (HttpErr.mk (some 400) none ("HTTP 400 again"))

def envC8 : Env :=
  testEnv (some ("https://api.atlassian.com")) (some ("cid-1")) none none
    (some ("a@b.c")) (some ("tok")) (some ("OPS")) (some ("t"))
    (some ("https://x/pr/1")) (some ("ghtok"))

def wC8 : World :=
  World.mk (Except.ok (JValue.obj [])) postC8
    (Except.error (HttpErr.mk none none ("down"))) (fun _ => none)
    (Except.error (HttpErr.mk none none ("nocreate")))

theorem c8_searchRetry_witness :
    jiraSearchAttempts postC8 ("OPS") ("https://x/pr/1") =
      [SearchBody.jqlShape (jqlOf ("OPS") ("https://x/pr/1")),
       SearchBody.queryShape (jqlOf ("OPS") ("https://x/pr/1"))] ∧
    jiraSearchByText postC8 ("OPS") ("https://x/pr/1") =
      Except.error (HttpErr.mk (some 400) none ("HTTP 400 again")) ∧
    mainRun envC8 wC8 = mainRun envC8 (World.mk wC8.myself (fun _ => Except.ok (JValue.obj []))
      wC8.chat wC8.jsonParse wC8.createResult) := by
  obtain ⟨hA, hB, hC⟩ := c8_searchRetry postC8 ("OPS") ("https://x/pr/1")
    (HttpErr.mk (some 400) none ("HTTP 400"))
    (HttpErr.mk (some 400) none ("HTTP 400 again"))
    (by decide) rfl rfl rfl
  exact ⟨hA, hB, hC envC8 wC8 (HttpErr.mk (some 400) none ("HTTP 400 again")) rfl⟩

/-! ## Claim C1: generation failure aborts the run without creating an issue -/

/-- Claim C1: with a token present, a failed language-model call makes
`generateWithGitHubModels` throw, as does a response without non-empty
string content; and whenever the generation step's outcome is an error,
`jiraCreateIssue` is never invoked and, if generation was actually invoked,
the process exits non-zero. -/
theorem c1_generationAbort (e : Env) (w : World) :
    (∀ err, envTruthy e.modelsToken = true → w.chat = Except.error err →
      genOutcome e w = Except.error err) ∧
    (∀ data err2, envTruthy e.modelsToken = true → w.chat = Except.ok data →
      chatContent data = Except.error err2 →
      genOutcome e w = Except.error err2) ∧
    (∀ err, genOutcome e w = Except.error err →
      (mainRun e w).createdFields = [] ∧
      ((mainRun e w).genInvoked = true → (mainRun e w).exitCode = 1)) := by
  refine ⟨?_, ?_, ?_⟩
  · intro err htok hchat
    unfold genOutcome generateWithGitHubModels
    rw [htok, hchat]
    rfl
  · intro data err2 htok hchat hcc
    unfold genOutcome generateWithGitHubModels
    rw [htok, hchat]
    dsimp only
    rw [hcc]
    rfl
  · intro err hgen
    unfold mainRun
    split_ifs <;> try exact ⟨rfl, fun _ => rfl⟩
    repeat' split
    all_goals try exact ⟨rfl, fun _ => rfl⟩
    all_goals try (cases ‹Option JValue› <;>
      first
        | exact ⟨rfl, fun _ => rfl⟩
        | exact ⟨rfl, fun h => by cases h⟩
        | simp_all [failRun])
    all_goals simp_all [failRun]

def envC1 : Env :=
  testEnv (some ("https://api.atlassian.com")) (some ("cid-1")) none none
    (some ("a@b.c")) (some ("tok")) (some ("OPS"))
    (some ("Bump x from 1 to 2")) none (some ("ghtok"))

def wC1 : World :=
  World.mk (Except.ok (JValue.obj [])) (fun _ => Except.ok (JValue.obj []))
    (Except.error (HttpErr.mk none none ("request_timeout"))) (fun _ => none)
    (Except.ok (JValue.obj []))

theorem c1_generationAbort_witness :
    genOutcome envC1 wC1 = Except.error (HttpErr.mk none none ("request_timeout")) ∧
    (mainRun envC1 wC1).createdFields = [] ∧
    (mainRun envC1 wC1).genInvoked = true ∧
    (mainRun envC1 wC1).exitCode = 1 := by
  have hgen : genOutcome envC1 wC1 = Except.error (HttpErr.mk none none ("request_timeout")) :=
    (c1_generationAbort envC1 wC1).1 (HttpErr.mk none none ("request_timeout")) rfl rfl
  obtain ⟨ha, hb⟩ := (c1_generationAbort envC1 wC1).2.2 (HttpErr.mk none none ("request_timeout")) hgen
  exact ⟨hgen, ha, by decide, hb (by decide)⟩

/-! ## Claim C2: the title `Bump <pkg> from <v> to <v>` pattern

`BumpSegAt cs u rest` says `cs` literally decomposes as the regex pattern
instantiated with `u`'s captures, followed by `rest`; `BumpOccurrence`
quantifies the position inside the title.  These are the declarative
(matcher-independent) statements of "the title contains the pattern". -/

/-- Case-insensitive equality (flag `i` on ASCII literals). -/
def ciMatch (a p : List Char) : Prop :=
  a.map Char.toLower = p.map Char.toLower

/-- A non-empty run of characters of a class (an `X+` group's capture). -/
def ClsRun (cls : Char → Bool) (l : List Char) : Prop :=
  l ≠ [] ∧ ∀ c ∈ l, cls c = true

/-- The first character (if any) fails the class. -/
def HeadNot (cls : Char → Bool) (l : List Char) : Prop :=
  ∀ c, l.head? = some c → cls c = false

/-- `cs` is the pattern `Bump\s+<name>\s+from\s+<from>\s+to\s+<to>`
(case-insensitive literals) followed by `rest`. -/
def BumpSegAt (cs : List Char) (u : Upgrade) (rest : List Char) : Prop :=
  ∃ B w1 w2 F w3 w4 T w5,
    cs = B ++ (w1 ++ (u.name.data ++ (w2 ++ (F ++ (w3 ++ (u.«from».data ++ (w4 ++
         (T ++ (w5 ++ (u.«to».data ++ rest)))))))))) ∧
    ciMatch B bumpPat ∧ ClsRun jsWs w1 ∧ ClsRun pkgChar u.name.data ∧
    ClsRun jsWs w2 ∧ ciMatch F fromPat ∧ ClsRun jsWs w3 ∧
    ClsRun verChar u.«from».data ∧ ClsRun jsWs w4 ∧ ciMatch T toPat ∧
    ClsRun jsWs w5 ∧ ClsRun verChar u.«to».data

/-- The title contains the pattern instantiated with `u`'s captures. -/
def BumpOccurrence (title : String) (u : Upgrade) : Prop :=
  ∃ pre suf rest, title.data = pre ++ suf ∧ BumpSegAt suf u rest

/-! Soundness and completeness of the literal matcher `stripCI`. -/

theorem stripCI_sound : ∀ {pat cs r : List Char}, stripCI pat cs = some r →
    ∃ a, cs = a ++ r ∧ ciMatch a pat := by
  intro pat
  induction pat with
  | nil =>
    intro cs r h
    cases h
    exact ⟨[], rfl, rfl⟩
  | cons p ps ih =>
    intro cs r h
    cases cs with
    | nil => cases h
    | cons c cs' =>
      rw [stripCI] at h
      by_cases hc : c.toLower = p.toLower
      · rw [if_pos hc] at h
        obtain ⟨a, ha, hm⟩ := ih h
        refine ⟨c :: a, by rw [ha]; rfl, ?_⟩
        show (c :: a).map Char.toLower = (p :: ps).map Char.toLower
        simp only [List.map_cons]
        rw [hc, hm]
      · rw [if_neg hc] at h
        cases h

theorem stripCI_complete : ∀ {pat a : List Char}, ciMatch a pat →
    ∀ r, stripCI pat (a ++ r) = some r := by
  intro pat
  induction pat with
  | nil =>
    intro a hm r
    have : a = [] := by
      have := hm
      unfold ciMatch at this
      simpa using this
    rw [this]
    rfl
  | cons p ps ih =>
    intro a hm r
    unfold ciMatch at hm
    cases a with
    | nil => simp at hm
    | cons c a' =>
      simp only [List.map_cons, List.cons.injEq] at hm
      rw [List.cons_append, stripCI, if_pos hm.1]
      exact ih hm.2 r

/-! Soundness and completeness of the greedy candidate splits. -/

theorem plusSplits_sound {cls : Char → Bool} {cs a b : List Char}
    (h : (a, b) ∈ plusSplits cls cs) :
    a ≠ [] ∧ (∀ c ∈ a, cls c = true) ∧ cs = a ++ b := by
  unfold plusSplits at h
  obtain ⟨i, hi, heq⟩ := List.mem_map.mp h
  rw [List.mem_range] at hi
  obtain ⟨ha, hb⟩ := Prod.mk.injEq .. ▸ heq
  refine ⟨?_, ?_, ?_⟩
  · rw [← ha]
    apply List.ne_nil_of_length_pos
    rw [List.length_take]
    omega
  · intro c hc
    rw [← ha] at hc
    exact List.mem_takeWhile_imp (List.mem_of_mem_take hc)
  · rw [← ha, ← hb]
    rw [← List.append_assoc, List.take_append_drop]
    exact (List.takeWhile_append_dropWhile cls cs).symm

theorem takeWhile_append_eq {cls : Char → Bool} {a b : List Char}
    (ha : ∀ c ∈ a, cls c = true) (hb : HeadNot cls b) :
    (a ++ b).takeWhile cls = a ∧ (a ++ b).dropWhile cls = b := by
  induction a with
  | nil =>
    cases b with
    | nil => exact ⟨rfl, rfl⟩
    | cons d ds =>
      have hd : cls d = false := hb d rfl
      constructor
      · simp [List.takeWhile_cons, hd]
      · simp [List.dropWhile_cons, hd]
  | cons x a' ih =>
    have hx : cls x = true := ha x (List.mem_cons_self _ _)
    obtain ⟨ht, hd⟩ := ih (fun c hc => ha c (List.mem_cons_of_mem _ hc))
    constructor
    · rw [List.cons_append, List.takeWhile_cons, if_pos hx, ht]
    · rw [List.cons_append, List.dropWhile_cons, if_pos hx, hd]

theorem mem_plusSplits_of {cls : Char → Bool} {a b cs : List Char}
    (hcs : cs = a ++ b) (ha : a ≠ []) (hacls : ∀ c ∈ a, cls c = true)
    (hb : HeadNot cls b) : (a, b) ∈ plusSplits cls cs := by
  subst hcs
  obtain ⟨ht, hd⟩ := takeWhile_append_eq hacls hb
  unfold plusSplits
  rw [ht, hd]
  apply List.mem_map.mpr
  refine ⟨0, List.mem_range.mpr (List.length_pos.mpr ha), ?_⟩
  simp

theorem mem_plusSplits_self {cls : Char → Bool} {cs : List Char}
    (h : ∃ c cs', cs = c :: cs' ∧ cls c = true) :
    (cs.takeWhile cls, cs.dropWhile cls) ∈ plusSplits cls cs := by
  obtain ⟨c, cs', rfl, hc⟩ := h
  unfold plusSplits
  apply List.mem_map.mpr
  have hlen : 0 < ((c :: cs').takeWhile cls).length := by
    rw [List.takeWhile_cons, if_pos hc]
    simp
  refine ⟨0, List.mem_range.mpr hlen, ?_⟩
  simp

/-! Soundness and an existence form of completeness for `matchPlus`. -/

theorem matchPlus_sound {cls : Char → Bool} {k : List Char → List Char → Option α}
    {cs : List Char} {v : α} (h : matchPlus cls k cs = some v) :
    ∃ a b, a ≠ [] ∧ (∀ c ∈ a, cls c = true) ∧ cs = a ++ b ∧ k a b = some v := by
  unfold matchPlus at h
  obtain ⟨⟨a, b⟩, hmem, hk⟩ := List.exists_of_findSome?_eq_some h
  obtain ⟨h1, h2, h3⟩ := plusSplits_sound hmem
  exact ⟨a, b, h1, h2, h3, hk⟩

theorem matchPlus_isSome {cls : Char → Bool} {k : List Char → List Char → Option α}
    {cs a b : List Char} {v : α}
    (hmem : (a, b) ∈ plusSplits cls cs) (hk : k a b = some v) :
    ∃ w, matchPlus cls k cs = some w := by
  rcases ho : matchPlus cls k cs with _ | w
  · exfalso
    unfold matchPlus at ho
    rw [List.findSome?_eq_none_iff] at ho
    have := ho (a, b) hmem
    rw [hk] at this
    cases this
  · exact ⟨w, rfl⟩

theorem execFirst_sound {m : List Char → Option α} :
    ∀ {cs : List Char} {v : α}, execFirst m cs = some v →
    ∃ pre suf, cs = pre ++ suf ∧ m suf = some v := by
  intro cs
  induction cs with
  | nil =>
    intro v h
    exact ⟨[], [], rfl, h⟩
  | cons c cs' ih =>
    intro v h
    rw [execFirst] at h
    rcases hm : m (c :: cs') with _ | w
    · rw [hm] at h
      obtain ⟨pre, suf, hs, hmt⟩ := ih h
      exact ⟨c :: pre, suf, by rw [hs]; rfl, hmt⟩
    · rw [hm] at h
      cases h
      exact ⟨[], c :: cs', rfl, hm⟩

theorem execFirst_isSome {m : List Char → Option α} :
    ∀ (pre : List Char) {cs suf : List Char}, cs = pre ++ suf →
    (∃ v, m suf = some v) → ∃ w, execFirst m cs = some w := by
  intro pre
  induction pre with
  | nil =>
    intro cs suf hcs hm
    obtain ⟨v, hv⟩ := hm
    have hcs' : cs = suf := by simpa using hcs
    subst hcs'
    cases hsuf : cs with
    | nil =>
      rw [hsuf] at hv
      exact ⟨v, hv⟩
    | cons c cs' =>
      subst hsuf
      refine ⟨v, ?_⟩
      rw [execFirst, hv]
  | cons p pre' ih =>
    intro cs suf hcs hm
    subst hcs
    rw [List.cons_append, execFirst]
    rcases hm0 : m (p :: (pre' ++ suf)) with _ | w
    · exact ih rfl hm
    · exact ⟨w, rfl⟩

theorem ClsRun.head {cls : Char → Bool} {l : List Char} (h : ClsRun cls l) :
    ∃ c l', l = c :: l' ∧ cls c = true := by
  obtain ⟨hne, hall⟩ := h
  cases l with
  | nil => exact absurd rfl hne
  | cons c l' => exact ⟨c, l', rfl, hall c (List.mem_cons_self _ _)⟩

theorem headNot_append_of_run {cls cls2 : Char → Bool} {l r : List Char}
    (hl : ClsRun cls2 l) (hdisj : ∀ c, cls2 c = true → cls c = false) :
    HeadNot cls (l ++ r) := by
  intro c hc
  obtain ⟨x, xs, rfl, hx⟩ := hl.head
  simp only [List.cons_append, List.head?_cons, Option.some.injEq] at hc
  subst hc
  exact hdisj _ hx

theorem ciMatch_head {a p : List Char} {q : Char} {qs : List Char}
    (hp : p = q :: qs) (h : ciMatch a p) :
    ∃ c a', a = c :: a' ∧ c.toLower = q.toLower := by
  subst hp
  unfold ciMatch at h
  cases a with
  | nil => simp at h
  | cons c a' =>
    simp only [List.map_cons, List.cons.injEq] at h
    exact ⟨c, a', rfl, h.1⟩

theorem headNot_ws_fromPat {F r : List Char} (h : ciMatch F fromPat) :
    HeadNot jsWs (F ++ r) := by
  obtain ⟨c, F', rfl, hc⟩ :=
    ciMatch_head (show fromPat = 'f' :: ['r', 'o', 'm'] from by decide) h
  intro d hd
  simp only [List.cons_append, List.head?_cons, Option.some.injEq] at hd
  subst hd
  exact not_ws_of_toLower (show jsWs 'f' = false from by decide)
    (show c.toLower = 'f' from hc.trans (by decide))

theorem headNot_ws_toPat {T r : List Char} (h : ciMatch T toPat) :
    HeadNot jsWs (T ++ r) := by
  obtain ⟨c, T', rfl, hc⟩ :=
    ciMatch_head (show toPat = 't' :: ['o'] from by decide) h
  intro d hd
  simp only [List.cons_append, List.head?_cons, Option.some.injEq] at hd
  subst hd
  exact not_ws_of_toLower (show jsWs 't' = false from by decide)
    (show c.toLower = 't' from hc.trans (by decide))

theorem matchFromTo_isSome {F w3 f w4 T w5 t : List Char} (post : List Char)
    (hF : ciMatch F fromPat) (hw3 : ClsRun jsWs w3) (hf : ClsRun verChar f)
    (hw4 : ClsRun jsWs w4) (hT : ciMatch T toPat) (hw5 : ClsRun jsWs w5)
    (ht : ClsRun verChar t) :
    ∃ res, matchFromTo (F ++ (w3 ++ (f ++ (w4 ++ (T ++ (w5 ++ (t ++ post))))))) = some res := by
  obtain ⟨c0, t', ht', hc0⟩ := ht.head
  obtain ⟨v5, hv5⟩ : ∃ v, matchPlus verChar (fun t2 r5 => some (f, t2, r5)) (t ++ post) = some v :=
    matchPlus_isSome (mem_plusSplits_self ⟨c0, t' ++ post, by rw [ht']; rfl, hc0⟩) rfl
  obtain ⟨v4, hv4⟩ : ∃ v, matchPlus jsWs
      (fun _ r4 => matchPlus verChar (fun t2 r5 => some (f, t2, r5)) r4)
      (w5 ++ (t ++ post)) = some v :=
    matchPlus_isSome
      (mem_plusSplits_of rfl hw5.1 hw5.2
        (headNot_append_of_run ht (fun c h => verChar_not_ws h)))
      hv5
  have hk3 : (stripCI toPat (T ++ (w5 ++ (t ++ post)))).bind
      (matchPlus jsWs (fun _ r4 => matchPlus verChar (fun t2 r5 => some (f, t2, r5)) r4)) = some v4 := by
    rw [stripCI_complete hT]
    simpa using hv4
  obtain ⟨v3, hv3⟩ : ∃ v, matchPlus jsWs
      (fun _ r3 => (stripCI toPat r3).bind
        (matchPlus jsWs (fun _ r4 => matchPlus verChar (fun t2 r5 => some (f, t2, r5)) r4)))
      (w4 ++ (T ++ (w5 ++ (t ++ post)))) = some v :=
    matchPlus_isSome
      (mem_plusSplits_of rfl hw4.1 hw4.2 (headNot_ws_toPat hT))
      hk3
  obtain ⟨v2, hv2⟩ : ∃ v, matchPlus verChar
      (fun f2 r2 => matchPlus jsWs
        (fun _ r3 => (stripCI toPat r3).bind
          (matchPlus jsWs (fun _ r4 => matchPlus verChar (fun t2 r5 => some (f2, t2, r5)) r4)))
        r2)
      (f ++ (w4 ++ (T ++ (w5 ++ (t ++ post))))) = some v :=
    matchPlus_isSome
      (mem_plusSplits_of rfl hf.1 hf.2
        (headNot_append_of_run hw4 (fun c h => ws_not_verChar h)))
      hv3
  obtain ⟨v1, hv1⟩ : ∃ v, matchPlus jsWs
      (fun _ r1 => matchPlus verChar
        (fun f2 r2 => matchPlus jsWs
          (fun _ r3 => (stripCI toPat r3).bind
            (matchPlus jsWs (fun _ r4 => matchPlus verChar (fun t2 r5 => some (f2, t2, r5)) r4)))
          r2)
        r1)
      (w3 ++ (f ++ (w4 ++ (T ++ (w5 ++ (t ++ post)))))) = some v :=
    matchPlus_isSome
      (mem_plusSplits_of rfl hw3.1 hw3.2
        (headNot_append_of_run hf (fun c h => verChar_not_ws h)))
      hv2
  refine ⟨v1, ?_⟩
  unfold matchFromTo
  rw [stripCI_complete hF]
  simpa using hv1

theorem matchFromTo_sound {cs f t r : List Char}
    (h : matchFromTo cs = some (f, t, r)) :
    ∃ F w3 w4 T w5,
      cs = F ++ (w3 ++ (f ++ (w4 ++ (T ++ (w5 ++ (t ++ r)))))) ∧
      ciMatch F fromPat ∧ ClsRun jsWs w3 ∧ ClsRun verChar f ∧
      ClsRun jsWs w4 ∧ ciMatch T toPat ∧ ClsRun jsWs w5 ∧ ClsRun verChar t := by
  unfold matchFromTo at h
  rw [Option.bind_eq_some] at h
  obtain ⟨r1, hstrip, ha⟩ := h
  obtain ⟨F, rfl, hF⟩ := stripCI_sound hstrip
  obtain ⟨w3, r2, hw3ne, hw3cls, hr1, hb⟩ := matchPlus_sound ha
  clear ha
  subst hr1
  obtain ⟨f0, r3, hfne, hfcls, hr2, hc⟩ := matchPlus_sound hb
  clear hb
  subst hr2
  obtain ⟨w4, r4, hw4ne, hw4cls, hr3, hd⟩ := matchPlus_sound hc
  clear hc
  subst hr3
  rw [Option.bind_eq_some] at hd
  obtain ⟨r5, hstripT, he⟩ := hd
  obtain ⟨T, hr4, hT⟩ := stripCI_sound hstripT
  subst hr4
  obtain ⟨w5, r6, hw5ne, hw5cls, hr5, hf0e⟩ := matchPlus_sound he
  clear he
  subst hr5
  obtain ⟨t0, r7, htne, htcls, hr6, hg⟩ := matchPlus_sound hf0e
  clear hf0e
  subst hr6
  injection hg with hg
  obtain ⟨h1, h2, h3⟩ : f0 = f ∧ t0 = t ∧ r7 = r := by
    simpa [Prod.ext_iff] using hg
  subst h1
  subst h2
  subst h3
  exact ⟨F, w3, w4, T, w5, rfl, hF, ⟨hw3ne, hw3cls⟩, ⟨hfne, hfcls⟩,
    ⟨hw4ne, hw4cls⟩, hT, ⟨hw5ne, hw5cls⟩, ⟨htne, htcls⟩⟩

theorem matchPkgFromTo_sound {cs : List Char} {u : Upgrade} {rest : List Char}
    (h : matchPkgFromTo cs = some (u, rest)) :
    ∃ n w2 F w3 f w4 T w5 t,
      cs = n ++ (w2 ++ (F ++ (w3 ++ (f ++ (w4 ++ (T ++ (w5 ++ (t ++ rest)))))))) ∧
      u = Upgrade.mk n.asString f.asString t.asString ∧
      ClsRun pkgChar n ∧ ClsRun jsWs w2 ∧ ciMatch F fromPat ∧ ClsRun jsWs w3 ∧
      ClsRun verChar f ∧ ClsRun jsWs w4 ∧ ciMatch T toPat ∧ ClsRun jsWs w5 ∧
      ClsRun verChar t := by
  unfold matchPkgFromTo at h
  obtain ⟨n, r1, hnne, hncls, hcs, ha⟩ := matchPlus_sound h
  clear h
  subst hcs
  obtain ⟨w2, r2, hw2ne, hw2cls, hr1, hb⟩ := matchPlus_sound ha
  clear ha
  subst hr1
  rw [Option.map_eq_some'] at hb
  obtain ⟨⟨f0, t0, r0⟩, hft, hg⟩ := hb
  obtain ⟨hu, hrest⟩ : u = Upgrade.mk n.asString f0.asString t0.asString ∧ r0 = rest := by
    constructor
    · exact (congrArg Prod.fst hg).symm
    · exact congrArg Prod.snd hg
  subst hrest
  obtain ⟨F, w3, w4, T, w5, hr2, hF, hw3, hf, hw4, hT, hw5, ht⟩ := matchFromTo_sound hft
  subst hr2
  exact ⟨n, w2, F, w3, f0, w4, T, w5, t0, rfl, hu, ⟨hnne, hncls⟩, ⟨hw2ne, hw2cls⟩,
    hF, hw3, hf, hw4, hT, hw5, ht⟩

theorem matchPkgFromTo_isSome {n w2 F w3 f w4 T w5 t : List Char} (post : List Char)
    (hn : ClsRun pkgChar n) (hw2 : ClsRun jsWs w2) (hF : ciMatch F fromPat)
    (hw3 : ClsRun jsWs w3) (hf : ClsRun verChar f) (hw4 : ClsRun jsWs w4)
    (hT : ciMatch T toPat) (hw5 : ClsRun jsWs w5) (ht : ClsRun verChar t) :
    ∃ res, matchPkgFromTo
      (n ++ (w2 ++ (F ++ (w3 ++ (f ++ (w4 ++ (T ++ (w5 ++ (t ++ post))))))))) = some res := by
  obtain ⟨vf, hvf⟩ := matchFromTo_isSome post hF hw3 hf hw4 hT hw5 ht
  have hmap : (matchFromTo (F ++ (w3 ++ (f ++ (w4 ++ (T ++ (w5 ++ (t ++ post)))))))).map
      (fun ftr => ((⟨n.asString, ftr.1.asString, ftr.2.1.asString⟩ : Upgrade), ftr.2.2)) =
      some ((⟨n.asString, vf.1.asString, vf.2.1.asString⟩ : Upgrade), vf.2.2) := by
    rw [hvf]
    rfl
  obtain ⟨v2, hv2⟩ : ∃ v, matchPlus jsWs
      (fun _ r2 => (matchFromTo r2).map
        (fun ftr => ((⟨n.asString, ftr.1.asString, ftr.2.1.asString⟩ : Upgrade), ftr.2.2)))
      (w2 ++ (F ++ (w3 ++ (f ++ (w4 ++ (T ++ (w5 ++ (t ++ post)))))))) = some v :=
    matchPlus_isSome
      (mem_plusSplits_of rfl hw2.1 hw2.2 (headNot_ws_fromPat hF))
      hmap
  obtain ⟨v1, hv1⟩ : ∃ v, matchPlus pkgChar
      (fun n2 r => matchPlus jsWs
        (fun _ r2 => (matchFromTo r2).map
          (fun ftr => ((⟨n2.asString, ftr.1.asString, ftr.2.1.asString⟩ : Upgrade), ftr.2.2)))
        r)
      (n ++ (w2 ++ (F ++ (w3 ++ (f ++ (w4 ++ (T ++ (w5 ++ (t ++ post))))))))) = some v :=
    matchPlus_isSome
      (mem_plusSplits_of rfl hn.1 hn.2
        (headNot_append_of_run hw2 (fun c h => ws_not_pkgChar h)))
      hv2
  exact ⟨v1, hv1⟩

theorem matchBumpAt_sound {cs : List Char} {u : Upgrade} {rest : List Char}
    (h : matchBumpAt cs = some (u, rest)) : BumpSegAt cs u rest := by
  unfold matchBumpAt at h
  rw [Option.bind_eq_some] at h
  obtain ⟨r1, hstrip, ha⟩ := h
  obtain ⟨B, rfl, hB⟩ := stripCI_sound hstrip
  obtain ⟨w1, r2, hw1ne, hw1cls, hr1, hb⟩ := matchPlus_sound ha
  clear ha
  subst hr1
  obtain ⟨n, w2, F, w3, f, w4, T, w5, t, hr2, hu, hn, hw2, hF, hw3, hf, hw4, hT, hw5, ht⟩ :=
    matchPkgFromTo_sound hb
  subst hr2
  subst hu
  exact ⟨B, w1, w2, F, w3, w4, T, w5, rfl, hB, ⟨hw1ne, hw1cls⟩, hn, hw2, hF,
    hw3, hf, hw4, hT, hw5, ht⟩

theorem matchBumpAt_isSome {cs : List Char} {u : Upgrade} {rest : List Char}
    (h : BumpSegAt cs u rest) : ∃ res, matchBumpAt cs = some res := by
  obtain ⟨B, w1, w2, F, w3, w4, T, w5, hcs, hB, hw1, hn, hw2, hF, hw3, hf, hw4, hT, hw5, ht⟩ := h
  subst hcs
  obtain ⟨vp, hvp⟩ := matchPkgFromTo_isSome rest hn hw2 hF hw3 hf hw4 hT hw5 ht
  obtain ⟨v1, hv1⟩ : ∃ v, matchPlus jsWs (fun _ r => matchPkgFromTo r)
      (w1 ++ (u.name.data ++ (w2 ++ (F ++ (w3 ++ (u.«from».data ++
        (w4 ++ (T ++ (w5 ++ (u.«to».data ++ rest)))))))))) = some v :=
    matchPlus_isSome
      (mem_plusSplits_of rfl hw1.1 hw1.2
        (headNot_append_of_run hn (fun c h => pkgChar_not_ws h)))
      hvp
  refine ⟨v1, ?_⟩
  unfold matchBumpAt
  rw [stripCI_complete hB]
  simpa using hv1

/-- Claim C2 (amended): for every pull-request title containing a
`Bump <package> from <version> to <version>` segment (case-insensitive
literals, package token from the word/`@`/`/`/`.`/`-` class, version tokens
from the alphanumeric/`.`/`+`/`-` class, arbitrary surrounding text),
`extractPackages` returns an upgrade list containing an upgrade record that
is itself such a segment of the title.  The original claim — that the
record for *every* such segment appears — fails because the title regex
carries no `g` flag: only the leftmost match is recorded (see
`c2_counterexample`). -/
theorem c2_extractTitle (title body : String) (u0 : Upgrade)
    (h : BumpOccurrence title u0) :
    ∃ u, u ∈ (extractPackages (some title) body).2 ∧ BumpOccurrence title u := by
  obtain ⟨pre, suf, rest, hps, hseg⟩ := h
  obtain ⟨res, hres⟩ := matchBumpAt_isSome hseg
  obtain ⟨w, hw⟩ := execFirst_isSome pre hps ⟨res, hres⟩
  refine ⟨w.1, ?_, ?_⟩
  · unfold extractPackages
    dsimp only
    rw [hw]
    exact List.mem_append_left _ (List.mem_singleton.mpr rfl)
  · obtain ⟨pre2, suf2, hps2, hm2⟩ := execFirst_sound hw
    exact ⟨pre2, suf2, w.2, hps2, matchBumpAt_sound hm2⟩

theorem c2_extractTitle_witness :
    ∃ u, u ∈ (extractPackages (some ("Bump lodash from 4.17.20 to 4.17.21")) ("")).2 ∧
      BumpOccurrence ("Bump lodash from 4.17.20 to 4.17.21") u :=
  c2_extractTitle ("Bump lodash from 4.17.20 to 4.17.21") ("")
    ⟨("lodash"), ("4.17.20"), ("4.17.21")⟩
    ⟨[], ("Bump lodash from 4.17.20 to 4.17.21").data, [], rfl,
     ("Bump").data, [' '], [' '], ("from").data, [' '], [' '], ("to").data, [' '],
     rfl, rfl, ⟨by decide, by decide⟩, ⟨by decide, by decide⟩,
     ⟨by decide, by decide⟩, rfl, ⟨by decide, by decide⟩, ⟨by decide, by decide⟩,
     ⟨by decide, by decide⟩, rfl, ⟨by decide, by decide⟩, ⟨by decide, by decide⟩⟩

/-- Claim C2, counterexample to the original wording: the title
`Bump a from 1 to 2 Bump b from 3 to 4` contains the segment
`Bump b from 3 to 4`, yet the record `{name: b, from: 3, to: 4}` is not in
the returned upgrade list — only the leftmost title match is recorded. -/
theorem c2_counterexample :
    BumpOccurrence ("Bump a from 1 to 2 Bump b from 3 to 4")
      ⟨("b"), ("3"), ("4")⟩ ∧
    (⟨("b"), ("3"), ("4")⟩ : Upgrade) ∉
      (extractPackages (some ("Bump a from 1 to 2 Bump b from 3 to 4")) ("")).2 := by
  refine ⟨⟨("Bump a from 1 to 2 ").data, ("Bump b from 3 to 4").data, [], rfl,
     ("Bump").data, [' '], [' '], ("from").data, [' '], [' '], ("to").data, [' '],
     rfl, rfl, ⟨by decide, by decide⟩, ⟨by decide, by decide⟩,
     ⟨by decide, by decide⟩, rfl, ⟨by decide, by decide⟩, ⟨by decide, by decide⟩,
     ⟨by decide, by decide⟩, rfl, ⟨by decide, by decide⟩, ⟨by decide, by decide⟩⟩, ?_⟩
  decide
